import Mathlib

/-!
Verification of the virtual-texturing runtime (vt_lib).

This file gives a shallow embedding of the parts of the library the
verified properties talk about:

* the PageId codec (vt_common.hpp),
* the page cache manager and its LRU chain (vt_page_cache_mgr.cpp),
* the page provider's outstanding-request accounting (vt_page_provider.cpp),
* the feedback-buffer analysis of the page resolver (vt_page_resolver.cpp),
* the indirection-table update (vt_page_indirection_table.cpp),
* the VTFF page file loader (vt_page_file.cpp),
* the frame-update drain loop of VirtualTexture (vt_virtual_texture.cpp).

Machine integers of the C++ are modelled as `Nat` with explicit masking
where overflow or truncation matters.  Pointers of the intrusive
doubly-linked LRU list are modelled as `Option Nat` indices into the
fixed 256-entry pool; the null-pointer dereferences that the C++ would
perform on states violating its own invariants are modelled as no-ops
(those branches are proven unreachable under the chain invariant).
-/

-- ==================================================================
-- PageId codec (vt_common.hpp)
-- ==================================================================

/-- `PageId` is a 32-bit word in the C++ (`using PageId = uint32_t`). -/
abbrev PageId := Nat

/-- `constexpr PageId InvalidPageId = 0xFFFFFFFF`. -/
def InvalidPageId : PageId := 4294967295

/-- `(pageId & 0x000000FF) >> 0` — the R channel / page X. -/
def pageIdExtractPageX (pageId : PageId) : Nat := pageId % 256

/-- `(pageId & 0x0000FF00) >> 8` — the G channel / page Y. -/
def pageIdExtractPageY (pageId : PageId) : Nat := pageId / 256 % 256

/-- `(pageId & 0x00FF0000) >> 16` — the B channel / mip level. -/
def pageIdExtractMipLevel (pageId : PageId) : Nat := pageId / 65536 % 256

/-- `(pageId & 0xFF000000) >> 24` — the A channel / texture index. -/
def pageIdExtractTextureIndex (pageId : PageId) : Nat := pageId / 16777216 % 256

/-- `((texId & 0xFF) << 24) | ((level & 0xFF) << 16) | ((y & 0xFF) << 8) | (x & 0xFF)`;
the OR of the disjoint byte fields is their sum. -/
def makePageId (x y level texId : Nat) : PageId :=
  texId % 256 * 16777216 + level % 256 * 65536 + y % 256 * 256 + x % 256

theorem pageIdExtractPageX_makePageId (x y level texId : Nat) :
    pageIdExtractPageX (makePageId x y level texId) = x % 256 := by
  unfold pageIdExtractPageX makePageId
  omega

theorem pageIdExtractPageY_makePageId (x y level texId : Nat) :
    pageIdExtractPageY (makePageId x y level texId) = y % 256 := by
  unfold pageIdExtractPageY makePageId
  omega

theorem pageIdExtractMipLevel_makePageId (x y level texId : Nat) :
    pageIdExtractMipLevel (makePageId x y level texId) = level % 256 := by
  unfold pageIdExtractMipLevel makePageId
  omega

theorem pageIdExtractTextureIndex_makePageId (x y level texId : Nat) :
    pageIdExtractTextureIndex (makePageId x y level texId) = texId % 256 := by
  unfold pageIdExtractTextureIndex makePageId
  omega

/-- A 32-bit word is the weighted sum of its four extracted byte fields. -/
theorem pageId_field_sum (a : Nat) (ha : a < 4294967296) :
    pageIdExtractTextureIndex a * 16777216 + pageIdExtractMipLevel a * 65536
      + pageIdExtractPageY a * 256 + pageIdExtractPageX a = a := by
  unfold pageIdExtractPageX pageIdExtractPageY pageIdExtractMipLevel pageIdExtractTextureIndex
  rw [← Nat.mod_mul_right_div_self a 256 256, ← Nat.mod_mul_right_div_self a 65536 256,
    ← Nat.mod_mul_right_div_self a 16777216 256]
  omega

/-- A 32-bit page id is determined by its four extracted byte fields. -/
theorem pageId_ext (a b : Nat) (ha : a < 4294967296) (hb : b < 4294967296)
    (hx : pageIdExtractPageX a = pageIdExtractPageX b)
    (hy : pageIdExtractPageY a = pageIdExtractPageY b)
    (hl : pageIdExtractMipLevel a = pageIdExtractMipLevel b)
    (ht : pageIdExtractTextureIndex a = pageIdExtractTextureIndex b) : a = b := by
  rw [← pageId_field_sum a ha, ← pageId_field_sum b hb, hx, hy, hl, ht]

-- ==================================================================
-- Page cache manager (vt_page_cache_mgr.cpp)
-- ==================================================================

/-- `PageTable::TableSizeInPages = 16`, mirrored by
`PageCacheMgr::CacheSizeInPages`. -/
def CacheSizeInPages : Nat := 16

/-- `CacheSizeInPages^2 = 256` physical cache pages. -/
def TotalCachePages : Nat := CacheSizeInPages * CacheSizeInPages

/-- A slot of the `CachePageTree`: null pointer, the
`getRequestedPageDummy()` sentinel, or a pointer to pool entry `i`. -/
inductive TreeSlot where
  | null
  | inflight
  | entry (i : Nat)
  deriving DecidableEq, Repr

/-- Whether a tree slot holds a real cache entry. -/
def TreeSlot.isEntry : TreeSlot → Bool
  | TreeSlot.entry _ => true
  | _ => false

/-- `PageCacheMgr::RuntimeStats`. -/
structure RuntimeStats where
  servicedRequests : Nat
  newFrameRequests : Nat
  droppedRequests : Nat
  reFrameRequests : Nat
  totalFrameRequests : Nat
  hitFrameRequests : Nat
  deriving DecidableEq, Repr

/-- The zero-filled stats of `clearPodObject(stats)`. -/
def zeroStats : RuntimeStats :=
  { servicedRequests := 0, newFrameRequests := 0, droppedRequests := 0
    reFrameRequests := 0, totalFrameRequests := 0, hitFrameRequests := 0 }

/-- The mutable state of a `PageCacheMgr`.

* `prev`/`next` are the intrusive LRU links of the 256 pool entries
  (`CacheEntry::prev/next`), as indices into `cacheEntryPool`;
* `entryPageId i` is `cacheEntryPool[i].pageId`;
* `mru`/`lru` are the list heads;
* `tree level x y` is the `CachePageTree` slot.

The per-entry `cacheCoord` is fixed at construction and never written
again, so it is kept outside the state (`cacheCoordX`/`cacheCoordY`). -/
structure CacheState where
  prev : Nat → Option Nat
  next : Nat → Option Nat
  entryPageId : Nat → PageId
  mru : Nat
  lru : Nat
  tree : Nat → Nat → Nat → TreeSlot
  stats : RuntimeStats

/-- Constructor loop `entries[x + y * CacheSizeInPages].cacheCoord = (x, y)`:
pool entry `i` has x-coordinate `i % 16`. -/
def cacheCoordX (i : Nat) : Nat := i % CacheSizeInPages

/-- Pool entry `i` has fixed y-coordinate `i / 16`. -/
def cacheCoordY (i : Nat) : Nat := i / CacheSizeInPages

/-- `CachePageTree::set(level, x, y, entry)` as a function update. -/
def treeSet (t : Nat → Nat → Nat → TreeSlot) (level x y : Nat) (e : TreeSlot) :
    Nat → Nat → Nat → TreeSlot :=
  fun l a b => if l = level ∧ a = x ∧ b = y then e else t l a b

/-- `CachePageTree::set(PageId, entry)`: extracts (level, x, y) from the id. -/
def treeSetId (t : Nat → Nat → Nat → TreeSlot) (id : PageId) (e : TreeSlot) :
    Nat → Nat → Nat → TreeSlot :=
  treeSet t (pageIdExtractMipLevel id) (pageIdExtractPageX id) (pageIdExtractPageY id) e

/-- Update one cell of an `Option Nat`-valued pointer field. -/
def updf (f : Nat → Option Nat) (i : Nat) (v : Option Nat) : Nat → Option Nat :=
  fun j => if j = i then v else f j

/-- `PageCacheMgr::purgeCache()` result (also the state right after the
constructor, which ends in `purgeCache()`): stats zeroed, tree nulled,
pool re-linked as the chain `0 → 1 → ⋯ → 255` with `mru = 0`,
`lru = 255`, and every `pageId` invalidated. -/
def initialCacheState : CacheState where
  prev := fun i => if i = 0 ∨ 256 ≤ i then none else some (i - 1)
  next := fun i => if i + 1 < 256 then some (i + 1) else none
  entryPageId := fun _ => InvalidPageId
  mru := 0
  lru := 255
  tree := fun _ _ _ => TreeSlot.null
  stats := zeroStats

/-- `purgeCache` resets every state component, so it is a constant map. -/
def purgeCache (_s : CacheState) : CacheState := initialCacheState

/-- Return values of `PageCacheMgr::lookupPage`. -/
inductive CachePageStatus where
  | Cached
  | InFlight
  | Unavailable
  deriving DecidableEq, Repr

/-- The `if (entry != mru)` splice of `lookupPage`: unlink `entry`
(from the interior, or from the LRU tail when `entry->next == nullptr`)
and re-link it at the MRU head.  The `none` fallbacks correspond to
null-pointer dereferences the C++ cannot reach on chain-valid states. -/
def spliceToMru (s : CacheState) (entry : Nat) : CacheState :=
  if entry = s.mru then s
  else
    let s1 :=
      match s.next entry with
      | some nx =>
        match s.prev entry with
        | some pv =>
          { s with next := updf s.next pv (some nx), prev := updf s.prev nx (some pv) }
        | none => s
      | none =>
        match s.prev entry with
        | some pv => { s with next := updf s.next pv none, lru := pv }
        | none => s
    { s1 with
      prev := updf (updf s1.prev entry none) s1.mru (some entry)
      next := updf s1.next entry (some s1.mru)
      mru := entry }

/-- `PageCacheMgr::lookupPage(id)`. -/
def lookupPage (s : CacheState) (id : PageId) : CacheState × CachePageStatus :=
  let level := pageIdExtractMipLevel id
  let pageX := pageIdExtractPageX id
  let pageY := pageIdExtractPageY id
  let s := { s with stats := { s.stats with totalFrameRequests := s.stats.totalFrameRequests + 1 } }
  match s.tree level pageX pageY with
  | TreeSlot.null =>
    ({ s with
        tree := treeSet s.tree level pageX pageY TreeSlot.inflight
        stats := { s.stats with newFrameRequests := s.stats.newFrameRequests + 1 } },
     CachePageStatus.Unavailable)
  | TreeSlot.inflight =>
    ({ s with stats := { s.stats with reFrameRequests := s.stats.reFrameRequests + 1 } },
     CachePageStatus.InFlight)
  | TreeSlot.entry e =>
    let s := { s with stats := { s.stats with hitFrameRequests := s.stats.hitFrameRequests + 1 } }
    (spliceToMru s e, CachePageStatus.Cached)

/-- `PageCacheMgr::stillWantPage(id)`. -/
def stillWantPage (s : CacheState) (id : PageId) : Bool :=
  decide (s.tree (pageIdExtractMipLevel id) (pageIdExtractPageX id) (pageIdExtractPageY id)
    = TreeSlot.inflight)

/-- `PageCacheMgr::allocPageEntry()`: clear the tree slot of the page
resident in the LRU tail (when valid), unlink the tail, and re-link it
at the MRU head.  Returns the updated state and the reused entry. -/
def allocPageEntry (s : CacheState) : CacheState × Nat :=
  let s :=
    if s.entryPageId s.lru ≠ InvalidPageId then
      { s with tree := treeSetId s.tree (s.entryPageId s.lru) TreeSlot.null }
    else s
  let entry := s.lru
  let s :=
    match s.prev entry with
    | some pv => { s with next := updf s.next pv none, lru := pv }
    | none => s
  let s :=
    { s with
      prev := updf (updf s.prev entry none) s.mru (some entry)
      next := updf s.next entry (some s.mru)
      mru := entry }
  (s, entry)

/-- `PageCacheMgr::accommodatePage(id)`: allocate a pool entry, publish
it in the tree for `id`, store the new page id, bump
`servicedRequests`, and return the entry's fixed cache coordinate. -/
def accommodatePage (s : CacheState) (id : PageId) : CacheState × (Nat × Nat) :=
  let level := pageIdExtractMipLevel id
  let pageX := pageIdExtractPageX id
  let pageY := pageIdExtractPageY id
  let r := allocPageEntry s
  let entry := r.2
  let s := r.1
  let s :=
    { s with
      tree := treeSet s.tree level pageX pageY (TreeSlot.entry entry)
      entryPageId := fun i => if i = entry then id else s.entryPageId i
      stats := { s.stats with servicedRequests := s.stats.servicedRequests + 1 } }
  (s, (cacheCoordX entry, cacheCoordY entry))

/-- Per-texture page-tree dimensions (`CachePageTree`'s `numLevels`,
`numPagesX`, `numPagesY`). -/
structure CachePageTreeDims where
  numLevels : Nat
  numPagesX : Nat → Nat
  numPagesY : Nat → Nat

/-- `PageCacheMgr::validPageRequest(level, pageX, pageY)`. -/
def validPageRequest (dims : CachePageTreeDims) (level pageX pageY : Nat) : Bool :=
  decide (level < dims.numLevels) && decide (pageX < dims.numPagesX level)
    && decide (pageY < dims.numPagesY level)

/-- `PageCacheMgr::sanitizePageId(id)`: clamp the level, then clamp x
and y to the clamped level's extents, preserving the texture index.
The constructor asserts `vtPagesX[l] > 0` and `vtPagesY[l] > 0`, so the
`- 1` never underflows on real dimension tables. -/
def sanitizePageId (dims : CachePageTreeDims) (pageId : PageId) : PageId :=
  let x := pageIdExtractPageX pageId
  let y := pageIdExtractPageY pageId
  let level := pageIdExtractMipLevel pageId
  let texId := pageIdExtractTextureIndex pageId
  let level2 := if dims.numLevels ≤ level then dims.numLevels - 1 else level
  let x2 := if dims.numPagesX level2 ≤ x then dims.numPagesX level2 - 1 else x
  let y2 := if dims.numPagesY level2 ≤ y then dims.numPagesY level2 - 1 else y
  makePageId x2 y2 level2 texId

-- ==================================================================
-- The LRU chain invariant
-- ==================================================================

theorem updf_same (f : Nat → Option Nat) (i : Nat) (v : Option Nat) : updf f i v i = v := by
  simp [updf]

theorem updf_other (f : Nat → Option Nat) (i : Nat) (v : Option Nat) (j : Nat) (h : j ≠ i) :
    updf f i v j = f j := by
  simp [updf, h]

/-- The cache state `s` encodes the doubly-linked LRU chain `c`
(listed MRU first): the 256 pool entries appear exactly once, the
`next` links run down the list ending in `none`, the `prev` links run
up the list starting from `none`, and the list heads agree.  This is
the "`valid acyclic doubly-linked list of exactly 256 nodes with
`mru.prev == null` and `lru.next == null`" invariant. -/
structure ChainRep (s : CacheState) (c : List Nat) : Prop where
  nodup : c.Nodup
  bounded : ∀ i ∈ c, i < TotalCachePages
  complete : ∀ i, i < TotalCachePages → i ∈ c
  sizeEq : c.length = TotalCachePages
  headMru : c.head? = some s.mru
  lastLru : c.getLast? = some s.lru
  nextChain : List.Chain' (fun a b => s.next a = some b) c
  nextLast : s.next s.lru = none
  prevChain : List.Chain' (fun a b => s.prev b = some a) c
  prevHead : s.prev s.mru = none

/-- `Chain'` congruence: the relations only need to agree on pairs of
list members. -/
theorem chain_congr_mem {R S : Nat → Nat → Prop} :
    ∀ {l : List Nat}, (∀ a ∈ l, ∀ b ∈ l, R a b → S a b) → l.Chain' R → l.Chain' S := by
  intro l
  induction l with
  | nil => exact fun _ _ => List.chain'_nil
  | cons a t ih =>
    intro h hc
    rw [List.chain'_cons'] at hc ⊢
    refine ⟨?_, ?_⟩
    · intro y hy
      exact h a (List.mem_cons_self a t) y
        (List.mem_cons_of_mem a (List.mem_of_mem_head? hy)) (hc.1 y hy)
    · exact ih
        (fun x hx y hy hr => h x (List.mem_cons_of_mem a hx) y (List.mem_cons_of_mem a hy) hr)
        hc.2

/-- `spliceToMru` computation: `entry == mru` is a no-op. -/
theorem spliceToMru_eq_mru (s : CacheState) (e : Nat) (h : e = s.mru) :
    spliceToMru s e = s := by
  unfold spliceToMru
  rw [if_pos h]

/-- `spliceToMru` computation: unlink from the interior. -/
theorem spliceToMru_eq_interior (s : CacheState) (e nx pv : Nat)
    (hmru : e ≠ s.mru) (hnx : s.next e = some nx) (hpv : s.prev e = some pv) :
    spliceToMru s e =
      { s with
        next := updf (updf s.next pv (some nx)) e (some s.mru)
        prev := updf (updf (updf s.prev nx (some pv)) e none) s.mru (some e)
        mru := e } := by
  unfold spliceToMru
  rw [if_neg hmru, hnx, hpv]

/-- `spliceToMru` computation: unlink from the LRU tail. -/
theorem spliceToMru_eq_tail (s : CacheState) (e pv : Nat)
    (hmru : e ≠ s.mru) (hnx : s.next e = none) (hpv : s.prev e = some pv) :
    spliceToMru s e =
      { s with
        next := updf (updf s.next pv none) e (some s.mru)
        prev := updf (updf s.prev e none) s.mru (some e)
        mru := e
        lru := pv } := by
  unfold spliceToMru
  rw [if_neg hmru, hnx, hpv]

/-- Moving the LRU tail to the MRU head preserves the chain shape.
This is the pointer surgery shared by the tail case of `spliceToMru`
and by `allocPageEntry`. -/
theorem chainRep_move_tail (s s2 : CacheState) (l₁ : List Nat) (e pv : Nat)
    (hrep : ChainRep s (l₁ ++ [e])) (hl₁ : l₁ ≠ [])
    (hpvLast : l₁.getLast? = some pv)
    (h2prev : s2.prev = updf (updf s.prev e none) s.mru (some e))
    (h2next : s2.next = updf (updf s.next pv none) e (some s.mru))
    (h2mru : s2.mru = e) (h2lru : s2.lru = pv) :
    ChainRep s2 (e :: l₁) := by
  have hnodup := hrep.nodup
  rw [List.nodup_append] at hnodup
  obtain ⟨hnd1, -, hdisj⟩ := hnodup
  have heNotMem : e ∉ l₁ := fun h => hdisj h (List.mem_cons_self e [])
  have hheadl₁ : l₁.head? = some s.mru := by
    have h := hrep.headMru
    rwa [List.head?_append_of_ne_nil l₁ hl₁] at h
  have hmruMem : s.mru ∈ l₁ := List.mem_of_mem_head? hheadl₁
  have hpvMem : pv ∈ l₁ := List.mem_of_mem_getLast? hpvLast
  have hpvIn : pv ∈ l₁.getLast? := by rw [hpvLast]; rfl
  have hlruE : s.lru = e := by
    have h := hrep.lastLru
    rw [List.getLast?_append_of_ne_nil l₁ (by simp)] at h
    simpa using h.symm
  have hNeEMru : e ≠ s.mru := fun h => heNotMem (h ▸ hmruMem)
  have hNePvE : pv ≠ e := fun h => heNotMem (h ▸ hpvMem)
  have hnextSplit := hrep.nextChain
  rw [List.chain'_append] at hnextSplit
  obtain ⟨hnc1, -, hnlink⟩ := hnextSplit
  have hprevSplit := hrep.prevChain
  rw [List.chain'_append] at hprevSplit
  obtain ⟨hpc1, -, hplink⟩ := hprevSplit
  have hperm : List.Perm (l₁ ++ [e]) (e :: l₁) := by
    have h := @List.perm_middle _ e l₁ []
    rw [List.append_nil] at h
    exact h
  refine ⟨?_, ?_, ?_, ?_, ?_, ?_, ?_, ?_, ?_, ?_⟩
  · exact hperm.nodup hrep.nodup
  · exact fun i hi => hrep.bounded i (hperm.mem_iff.mpr hi)
  · exact fun i hi => hperm.mem_iff.mp (hrep.complete i hi)
  · rw [← hperm.length_eq, hrep.sizeEq]
  · simp [h2mru]
  · rw [h2lru]
    have hsplit : (e :: l₁) = [e] ++ l₁ := rfl
    rw [hsplit, List.getLast?_append_of_ne_nil [e] hl₁, hpvLast]
  · rw [List.chain'_cons']
    constructor
    · intro y hy
      rw [hheadl₁] at hy
      have hyE : y = s.mru := by simpa using hy.symm
      subst hyE
      rw [h2next, updf_same]
    · refine chain_congr_mem ?_ hnc1
      intro a ha b hb hr
      have haNe : a ≠ e := fun h => heNotMem (h ▸ ha)
      by_cases hapv : a = pv
      · rw [hapv] at hr
        have hpve : s.next pv = some e := hnlink pv hpvIn e rfl
        rw [hpve] at hr
        have hbe : e = b := by injection hr
        exact absurd (hbe ▸ hb) heNotMem
      · rw [h2next, updf_other _ _ _ _ haNe, updf_other _ _ _ _ hapv]
        exact hr
  · rw [h2next, h2lru, updf_other _ _ _ _ hNePvE, updf_same]
  · rw [List.chain'_cons']
    constructor
    · intro y hy
      rw [hheadl₁] at hy
      have hyE : y = s.mru := by simpa using hy.symm
      subst hyE
      rw [h2prev, updf_same]
    · refine chain_congr_mem ?_ hpc1
      intro a ha b hb hr
      have hbNe : b ≠ e := fun h => heNotMem (h ▸ hb)
      by_cases hbm : b = s.mru
      · subst hbm
        rw [hrep.prevHead] at hr
        exact absurd hr (by simp)
      · rw [h2prev, updf_other _ _ _ _ hbm, updf_other _ _ _ _ hbNe]
        exact hr
  · rw [h2prev, h2mru, updf_other _ _ _ _ hNeEMru, updf_same]

/-- Moving an interior entry to the MRU head preserves the chain
shape.  This is the pointer surgery of the interior case of
`spliceToMru`. -/
theorem chainRep_move_interior (s s2 : CacheState) (l₁ l₂ : List Nat) (e pv nx : Nat)
    (hrep : ChainRep s (l₁ ++ e :: nx :: l₂)) (hl₁ : l₁ ≠ [])
    (hpvLast : l₁.getLast? = some pv)
    (h2prev : s2.prev = updf (updf (updf s.prev nx (some pv)) e none) s.mru (some e))
    (h2next : s2.next = updf (updf s.next pv (some nx)) e (some s.mru))
    (h2mru : s2.mru = e) (h2lru : s2.lru = s.lru) :
    ChainRep s2 (e :: (l₁ ++ nx :: l₂)) := by
  have hnodup := hrep.nodup
  rw [List.nodup_append] at hnodup
  obtain ⟨hnd1, hnd2, hdisj⟩ := hnodup
  rw [List.nodup_cons] at hnd2
  obtain ⟨heNx, hnd3⟩ := hnd2
  have heNotMem : e ∉ l₁ := fun h => hdisj h (List.mem_cons_self e (nx :: l₂))
  have hnxNotMem : nx ∉ l₁ := fun h =>
    hdisj h (List.mem_cons_of_mem e (List.mem_cons_self nx l₂))
  have hheadl₁ : l₁.head? = some s.mru := by
    have h := hrep.headMru
    rwa [List.head?_append_of_ne_nil l₁ hl₁] at h
  have hmruMem : s.mru ∈ l₁ := List.mem_of_mem_head? hheadl₁
  have hpvMem : pv ∈ l₁ := List.mem_of_mem_getLast? hpvLast
  have hpvIn : pv ∈ l₁.getLast? := by rw [hpvLast]; rfl
  have hNeEMru : e ≠ s.mru := fun h => heNotMem (h ▸ hmruMem)
  have hNePvE : pv ≠ e := fun h => heNotMem (h ▸ hpvMem)
  have hNePvNx : pv ≠ nx := fun h => hnxNotMem (h ▸ hpvMem)
  have hNeMruNx : s.mru ≠ nx := fun h => hnxNotMem (h ▸ hmruMem)
  have hlruTail : (nx :: l₂).getLast? = some s.lru := by
    have h := hrep.lastLru
    rwa [List.getLast?_append_cons, List.getLast?_cons_cons] at h
  have hlruMemTail : s.lru ∈ nx :: l₂ := List.mem_of_mem_getLast? hlruTail
  have hNeLruE : s.lru ≠ e := fun h => heNx (by rw [← h]; exact hlruMemTail)
  have hNeLruPv : s.lru ≠ pv := fun h =>
    hdisj hpvMem (List.mem_cons_of_mem e (by rw [← h]; exact hlruMemTail))
  -- link facts of the old chain
  have hnextSplit := hrep.nextChain
  rw [List.chain'_append] at hnextSplit
  obtain ⟨hnc1, hnc2, hnlink⟩ := hnextSplit
  rw [List.chain'_cons] at hnc2
  obtain ⟨hnextENx, hncTail⟩ := hnc2
  have hprevSplit := hrep.prevChain
  rw [List.chain'_append] at hprevSplit
  obtain ⟨hpc1, hpc2, hplink⟩ := hprevSplit
  rw [List.chain'_cons] at hpc2
  obtain ⟨hprevNxE, hpcTail⟩ := hpc2
  have hnextPvE : s.next pv = some e := hnlink pv hpvIn e rfl
  have hperm : List.Perm (l₁ ++ e :: nx :: l₂) (e :: (l₁ ++ nx :: l₂)) :=
    @List.perm_middle _ e l₁ (nx :: l₂)
  refine ⟨?_, ?_, ?_, ?_, ?_, ?_, ?_, ?_, ?_, ?_⟩
  · exact hperm.nodup hrep.nodup
  · exact fun i hi => hrep.bounded i (hperm.mem_iff.mpr hi)
  · exact fun i hi => hperm.mem_iff.mp (hrep.complete i hi)
  · rw [← hperm.length_eq, hrep.sizeEq]
  · simp [h2mru]
  · rw [h2lru]
    have hsplit : (e :: (l₁ ++ nx :: l₂)) = [e] ++ (l₁ ++ nx :: l₂) := rfl
    rw [hsplit, List.getLast?_append_of_ne_nil [e] (by simp),
      List.getLast?_append_cons, hlruTail]
  · -- next chain of the new list
    rw [List.chain'_cons']
    constructor
    · intro y hy
      rw [List.head?_append_of_ne_nil l₁ hl₁, hheadl₁] at hy
      have hyE : y = s.mru := by simpa using hy.symm
      subst hyE
      rw [h2next, updf_same]
    · rw [List.chain'_append]
      refine ⟨?_, ?_, ?_⟩
      · refine chain_congr_mem ?_ hnc1
        intro a ha b hb hr
        have haNe : a ≠ e := fun h => heNotMem (h ▸ ha)
        by_cases hapv : a = pv
        · rw [hapv, hnextPvE] at hr
          have hbe : e = b := by injection hr
          exact absurd (hbe ▸ hb) heNotMem
        · rw [h2next, updf_other _ _ _ _ haNe, updf_other _ _ _ _ hapv]
          exact hr
      · refine chain_congr_mem ?_ hncTail
        intro a ha b hb hr
        have haNe : a ≠ e := fun h => heNx (by rw [← h]; exact ha)
        have haNpv : a ≠ pv := fun h =>
          hdisj hpvMem (List.mem_cons_of_mem e (by rw [← h]; exact ha))
        rw [h2next, updf_other _ _ _ _ haNe, updf_other _ _ _ _ haNpv]
        exact hr
      · intro x hx y hy
        rw [hpvLast] at hx
        have hxE : x = pv := by simpa using hx.symm
        have hyE : y = nx := by simpa using hy.symm
        subst hxE
        subst hyE
        rw [h2next, updf_other _ _ _ _ hNePvE, updf_same]
  · rw [h2next, h2lru, updf_other _ _ _ _ hNeLruE, updf_other _ _ _ _ hNeLruPv]
    exact hrep.nextLast
  · -- prev chain of the new list
    have hNeNxE : nx ≠ e := fun h => heNx (h ▸ List.mem_cons_self nx l₂)
    rw [List.chain'_cons']
    constructor
    · intro y hy
      rw [List.head?_append_of_ne_nil l₁ hl₁, hheadl₁] at hy
      have hyE : y = s.mru := by simpa using hy.symm
      subst hyE
      rw [h2prev, updf_same]
    · rw [List.chain'_append]
      refine ⟨?_, ?_, ?_⟩
      · refine chain_congr_mem ?_ hpc1
        intro a ha b hb hr
        have hbNe : b ≠ e := fun h => heNotMem (h ▸ hb)
        have hbNnx : b ≠ nx := fun h => hnxNotMem (h ▸ hb)
        by_cases hbm : b = s.mru
        · rw [hbm, hrep.prevHead] at hr
          exact absurd hr (by simp)
        · rw [h2prev, updf_other _ _ _ _ hbm, updf_other _ _ _ _ hbNe,
            updf_other _ _ _ _ hbNnx]
          exact hr
      · refine chain_congr_mem ?_ hpcTail
        intro a ha b hb hr
        by_cases hbnx : b = nx
        · rw [hbnx, hprevNxE] at hr
          have hae : e = a := by injection hr
          exact absurd (show e ∈ nx :: l₂ by rw [hae]; exact ha) heNx
        · have hbNe : b ≠ e := fun h => heNx (by rw [← h]; exact hb)
          have hbNm : b ≠ s.mru := fun h =>
            hdisj hmruMem (List.mem_cons_of_mem e (by rw [← h]; exact hb))
          rw [h2prev, updf_other _ _ _ _ hbNm, updf_other _ _ _ _ hbNe,
            updf_other _ _ _ _ hbnx]
          exact hr
      · intro x hx y hy
        rw [hpvLast] at hx
        have hxE : x = pv := by simpa using hx.symm
        have hyE : y = nx := by simpa using hy.symm
        subst hxE
        subst hyE
        rw [h2prev, updf_other _ _ _ _ (Ne.symm hNeMruNx), updf_other _ _ _ _ hNeNxE,
          updf_same]
  · rw [h2prev, h2mru, updf_other _ _ _ _ hNeEMru, updf_same]

/-- `spliceToMru` moves the looked-up entry to the head of the LRU
chain and keeps the chain valid, in every position (head, interior, or
the current LRU tail). -/
theorem chainRep_spliceToMru (s : CacheState) (c : List Nat) (e : Nat)
    (hrep : ChainRep s c) (he : e ∈ c) :
    ChainRep (spliceToMru s e) (e :: c.erase e) := by
  by_cases hmru : e = s.mru
  · rw [spliceToMru_eq_mru s e hmru]
    obtain ⟨a, t, hc⟩ : ∃ a t, c = a :: t := by
      cases c with
      | nil => simp at he
      | cons a t => exact ⟨a, t, rfl⟩
    have ha : a = s.mru := by
      have h := hrep.headMru
      rw [hc] at h
      simpa using h
    have hae : a = e := by rw [ha, hmru]
    rw [hc, hae, List.erase_cons_head, ← hae, ← hc]
    exact hrep
  · obtain ⟨l₁, l₂, hc⟩ := List.append_of_mem he
    have hl₁ : l₁ ≠ [] := by
      intro h
      rw [h] at hc
      have hh := hrep.headMru
      rw [hc] at hh
      simp at hh
      exact hmru hh
    have hpvLast : l₁.getLast? = some (l₁.getLast hl₁) := List.getLast?_eq_getLast l₁ hl₁
    have hprevE : s.prev e = some (l₁.getLast hl₁) := by
      have h := hrep.prevChain
      rw [hc, List.chain'_append] at h
      exact h.2.2 _ (by rw [hpvLast]; rfl) e rfl
    have hnd := hrep.nodup
    rw [hc, List.nodup_append] at hnd
    have heNotMem : e ∉ l₁ := fun h => hnd.2.2 h (List.mem_cons_self e l₂)
    have herase : c.erase e = l₁ ++ l₂ := by
      rw [hc, List.erase_append_right _ heNotMem, List.erase_cons_head]
    cases l₂ with
    | nil =>
      have heLru : e = s.lru := by
        have hl := hrep.lastLru
        rw [hc, List.getLast?_append_of_ne_nil l₁ (by simp)] at hl
        simpa using hl
      have hnextE : s.next e = none := by rw [heLru]; exact hrep.nextLast
      rw [spliceToMru_eq_tail s e _ hmru hnextE hprevE, herase, List.append_nil]
      exact chainRep_move_tail s _ l₁ e _ (hc ▸ hrep) hl₁ hpvLast rfl rfl rfl rfl
    | cons nx l₂t =>
      have hnextE : s.next e = some nx := by
        have h := hrep.nextChain
        rw [hc, List.chain'_append] at h
        exact (List.chain'_cons.mp h.2.1).1
      rw [spliceToMru_eq_interior s e nx _ hmru hnextE hprevE, herase]
      exact chainRep_move_interior s _ l₁ l₂t e _ nx (hc ▸ hrep) hl₁ hpvLast rfl rfl rfl rfl

/-- `allocPageEntry` computation on states where the LRU tail has a
predecessor (always the case under the chain invariant). -/
theorem allocPageEntry_eq (s : CacheState) (pv : Nat) (hpv : s.prev s.lru = some pv) :
    allocPageEntry s =
      ({ s with
          tree := if s.entryPageId s.lru ≠ InvalidPageId
            then treeSetId s.tree (s.entryPageId s.lru) TreeSlot.null else s.tree
          next := updf (updf s.next pv none) s.lru (some s.mru)
          prev := updf (updf s.prev s.lru none) s.mru (some s.lru)
          mru := s.lru
          lru := pv }, s.lru) := by
  unfold allocPageEntry
  by_cases h : s.entryPageId s.lru ≠ InvalidPageId
  · rw [if_pos h]
    simp only [hpv]
    rw [if_pos h]
  · rw [if_neg h]
    simp only [hpv]
    rw [if_neg h]

/-- `allocPageEntry` always reuses the LRU tail and keeps the chain
valid, splicing the tail to the MRU head. -/
theorem chainRep_allocPageEntry (s : CacheState) (c : List Nat) (hrep : ChainRep s c) :
    (allocPageEntry s).2 = s.lru ∧
    ChainRep (allocPageEntry s).1 (s.lru :: c.erase s.lru) := by
  have hcne : c ≠ [] := by
    intro h
    have hlen := hrep.sizeEq
    rw [h] at hlen
    simp [TotalCachePages, CacheSizeInPages] at hlen
  have hlast : c.getLast hcne = s.lru := by
    have h := hrep.lastLru
    rw [List.getLast?_eq_getLast c hcne] at h
    simpa using h
  obtain ⟨l₁, hc⟩ : ∃ l₁, c = l₁ ++ [s.lru] := by
    refine ⟨c.dropLast, ?_⟩
    rw [← hlast]
    exact (List.dropLast_append_getLast hcne).symm
  have hl₁ne : l₁ ≠ [] := by
    intro h
    have hlen := hrep.sizeEq
    rw [hc, h] at hlen
    simp [TotalCachePages, CacheSizeInPages] at hlen
  have hpvLast : l₁.getLast? = some (l₁.getLast hl₁ne) :=
    List.getLast?_eq_getLast l₁ hl₁ne
  have hprevLru : s.prev s.lru = some (l₁.getLast hl₁ne) := by
    have h := hrep.prevChain
    rw [hc, List.chain'_append] at h
    exact h.2.2 _ (by rw [hpvLast]; rfl) s.lru rfl
  have hnd := hrep.nodup
  rw [hc, List.nodup_append] at hnd
  have hLruNot : s.lru ∉ l₁ := fun h => hnd.2.2 h (List.mem_cons_self _ [])
  have herase : c.erase s.lru = l₁ := by
    rw [hc, List.erase_append_right _ hLruNot, List.erase_cons_head, List.append_nil]
  rw [allocPageEntry_eq s _ hprevLru]
  refine ⟨rfl, ?_⟩
  rw [herase]
  exact chainRep_move_tail s _ l₁ s.lru _ (hc ▸ hrep) hl₁ne hpvLast rfl rfl rfl rfl

/-- After `purgeCache` the pool is linked as the chain `[0, 1, …, 255]`. -/
theorem chainRep_initial : ChainRep initialCacheState (List.range 256) := by
  refine ⟨List.nodup_range 256, ?_, ?_, ?_, ?_, ?_, ?_, ?_, ?_, ?_⟩
  · intro i hi
    rw [List.mem_range] at hi
    unfold TotalCachePages CacheSizeInPages
    omega
  · intro i hi
    rw [List.mem_range]
    unfold TotalCachePages CacheSizeInPages at hi
    omega
  · rw [List.length_range]
    unfold TotalCachePages CacheSizeInPages
    omega
  · rw [show (256 : Nat) = 255 + 1 by omega, List.range_succ_eq_map]
    simp [initialCacheState]
  · rw [show (256 : Nat) = 255 + 1 by omega, List.range_succ,
      List.getLast?_append_of_ne_nil _ (by simp)]
    simp [initialCacheState]
  · rw [show (256 : Nat) = Nat.succ 255 by omega, List.chain'_range_succ]
    intro m hm
    simp only [initialCacheState]
    rw [if_pos (by omega)]
  · simp [initialCacheState]
  · rw [show (256 : Nat) = Nat.succ 255 by omega, List.chain'_range_succ]
    intro m hm
    simp only [initialCacheState]
    rw [if_neg (by omega)]
    simp
  · simp [initialCacheState]

/-- All real entries stored in the cache page tree point into the
256-entry pool. -/
def TreeWF (s : CacheState) : Prop :=
  ∀ level x y i, s.tree level x y = TreeSlot.entry i → i < TotalCachePages

theorem treeWF_initial : TreeWF initialCacheState := by
  intro level x y i h
  simp [initialCacheState] at h

/-- `ChainRep` only depends on the pointer fields of the state. -/
theorem chainRep_congr (s s2 : CacheState) (c : List Nat) (h : ChainRep s c)
    (hp : s2.prev = s.prev) (hn : s2.next = s.next)
    (hm : s2.mru = s.mru) (hl : s2.lru = s.lru) : ChainRep s2 c := by
  refine ⟨h.nodup, h.bounded, h.complete, h.sizeEq, ?_, ?_, ?_, ?_, ?_, ?_⟩
  · rw [hm]; exact h.headMru
  · rw [hl]; exact h.lastLru
  · rw [hn]; exact h.nextChain
  · rw [hn, hl]; exact h.nextLast
  · rw [hp]; exact h.prevChain
  · rw [hp, hm]; exact h.prevHead

/-- `lookupPage` computation: empty tree slot. -/
theorem lookupPage_eq_null (s : CacheState) (id : PageId)
    (h : s.tree (pageIdExtractMipLevel id) (pageIdExtractPageX id) (pageIdExtractPageY id)
      = TreeSlot.null) :
    lookupPage s id =
      ({ s with
          tree := treeSet s.tree (pageIdExtractMipLevel id) (pageIdExtractPageX id)
            (pageIdExtractPageY id) TreeSlot.inflight
          stats := { s.stats with
            totalFrameRequests := s.stats.totalFrameRequests + 1
            newFrameRequests := s.stats.newFrameRequests + 1 } },
       CachePageStatus.Unavailable) := by
  unfold lookupPage
  simp only [h]

/-- `lookupPage` computation: in-flight tree slot. -/
theorem lookupPage_eq_inflight (s : CacheState) (id : PageId)
    (h : s.tree (pageIdExtractMipLevel id) (pageIdExtractPageX id) (pageIdExtractPageY id)
      = TreeSlot.inflight) :
    lookupPage s id =
      ({ s with
          stats := { s.stats with
            totalFrameRequests := s.stats.totalFrameRequests + 1
            reFrameRequests := s.stats.reFrameRequests + 1 } },
       CachePageStatus.InFlight) := by
  unfold lookupPage
  simp only [h]

/-- `lookupPage` computation: resident tree slot. -/
theorem lookupPage_eq_entry (s : CacheState) (id : PageId) (e : Nat)
    (h : s.tree (pageIdExtractMipLevel id) (pageIdExtractPageX id) (pageIdExtractPageY id)
      = TreeSlot.entry e) :
    lookupPage s id =
      (spliceToMru
        { s with
          stats := { s.stats with
            totalFrameRequests := s.stats.totalFrameRequests + 1
            hitFrameRequests := s.stats.hitFrameRequests + 1 } } e,
       CachePageStatus.Cached) := by
  unfold lookupPage
  simp only [h]

/-- `accommodatePage` computation on states where the LRU tail has a
predecessor. -/
theorem accommodatePage_eq (s : CacheState) (id : PageId) (pv : Nat)
    (hpv : s.prev s.lru = some pv) :
    accommodatePage s id =
      ({ s with
          tree := treeSet
            (if s.entryPageId s.lru ≠ InvalidPageId
              then treeSetId s.tree (s.entryPageId s.lru) TreeSlot.null else s.tree)
            (pageIdExtractMipLevel id) (pageIdExtractPageX id) (pageIdExtractPageY id)
            (TreeSlot.entry s.lru)
          entryPageId := fun i => if i = s.lru then id else s.entryPageId i
          next := updf (updf s.next pv none) s.lru (some s.mru)
          prev := updf (updf s.prev s.lru none) s.mru (some s.lru)
          mru := s.lru
          lru := pv
          stats := { s.stats with servicedRequests := s.stats.servicedRequests + 1 } },
       (cacheCoordX s.lru, cacheCoordY s.lru)) := by
  unfold accommodatePage
  rw [allocPageEntry_eq s pv hpv]

theorem treeSet_pos (t : Nat → Nat → Nat → TreeSlot) (level x y : Nat) (e : TreeSlot)
    (l a b : Nat) (h : l = level ∧ a = x ∧ b = y) : treeSet t level x y e l a b = e := by
  simp [treeSet, h]

theorem treeSet_neg (t : Nat → Nat → Nat → TreeSlot) (level x y : Nat) (e : TreeSlot)
    (l a b : Nat) (h : ¬(l = level ∧ a = x ∧ b = y)) : treeSet t level x y e l a b = t l a b := by
  simp only [treeSet, if_neg h]

/-- `spliceToMru` never touches the page tree. -/
theorem spliceToMru_tree (s : CacheState) (e : Nat) : (spliceToMru s e).tree = s.tree := by
  unfold spliceToMru
  by_cases h : e = s.mru
  · rw [if_pos h]
  · rw [if_neg h]
    rcases hnx : s.next e with - | nx
    · rcases hpv : s.prev e with - | pv
      · rfl
      · rfl
    · rcases hpv : s.prev e with - | pv
      · rfl
      · rfl

/-- `spliceToMru` never touches the per-entry page ids. -/
theorem spliceToMru_entryPageId (s : CacheState) (e : Nat) :
    (spliceToMru s e).entryPageId = s.entryPageId := by
  unfold spliceToMru
  by_cases h : e = s.mru
  · rw [if_pos h]
  · rw [if_neg h]
    rcases hnx : s.next e with - | nx
    · rcases hpv : s.prev e with - | pv
      · rfl
      · rfl
    · rcases hpv : s.prev e with - | pv
      · rfl
      · rfl

/-- `allocPageEntry` always hands back the old LRU tail. -/
theorem allocPageEntry_snd (s : CacheState) : (allocPageEntry s).2 = s.lru := by
  unfold allocPageEntry
  by_cases h : s.entryPageId s.lru ≠ InvalidPageId
  · rw [if_pos h]
  · rw [if_neg h]

/-- The page tree after `allocPageEntry`: only the evicted page's slot
changes (to null), and only when the tail held a valid page. -/
theorem allocPageEntry_tree (s : CacheState) :
    (allocPageEntry s).1.tree =
      if s.entryPageId s.lru ≠ InvalidPageId
        then treeSetId s.tree (s.entryPageId s.lru) TreeSlot.null else s.tree := by
  unfold allocPageEntry
  by_cases h : s.entryPageId s.lru ≠ InvalidPageId
  · rw [if_pos h, if_pos h]
    dsimp only
    rcases hpv : s.prev s.lru with - | pv
    · rfl
    · rfl
  · rw [if_neg h, if_neg h]
    dsimp only
    rcases hpv : s.prev s.lru with - | pv
    · rfl
    · rfl

/-- The full per-state invariant carried through the C3 induction. -/
def CacheInv (s : CacheState) : Prop := (∃ c, ChainRep s c) ∧ TreeWF s

theorem cacheInv_initial : CacheInv initialCacheState :=
  ⟨⟨List.range 256, chainRep_initial⟩, treeWF_initial⟩

theorem cacheInv_lookupPage (s : CacheState) (id : PageId) (h : CacheInv s) :
    CacheInv (lookupPage s id).1 := by
  obtain ⟨⟨c, hrep⟩, hwf⟩ := h
  rcases htree : s.tree (pageIdExtractMipLevel id) (pageIdExtractPageX id)
      (pageIdExtractPageY id) with - | - | e
  · rw [lookupPage_eq_null s id htree]
    refine ⟨⟨c, chainRep_congr s _ c hrep rfl rfl rfl rfl⟩, ?_⟩
    intro lv a b i hslot
    by_cases hk : lv = pageIdExtractMipLevel id ∧ a = pageIdExtractPageX id
        ∧ b = pageIdExtractPageY id
    · rw [show ({ s with
          tree := treeSet s.tree (pageIdExtractMipLevel id) (pageIdExtractPageX id)
            (pageIdExtractPageY id) TreeSlot.inflight
          stats := { s.stats with
            totalFrameRequests := s.stats.totalFrameRequests + 1
            newFrameRequests := s.stats.newFrameRequests + 1 } } : CacheState).tree
          = treeSet s.tree (pageIdExtractMipLevel id) (pageIdExtractPageX id)
            (pageIdExtractPageY id) TreeSlot.inflight from rfl,
        treeSet_pos _ _ _ _ _ _ _ _ hk] at hslot
      exact absurd hslot (by simp)
    · rw [show ({ s with
          tree := treeSet s.tree (pageIdExtractMipLevel id) (pageIdExtractPageX id)
            (pageIdExtractPageY id) TreeSlot.inflight
          stats := { s.stats with
            totalFrameRequests := s.stats.totalFrameRequests + 1
            newFrameRequests := s.stats.newFrameRequests + 1 } } : CacheState).tree
          = treeSet s.tree (pageIdExtractMipLevel id) (pageIdExtractPageX id)
            (pageIdExtractPageY id) TreeSlot.inflight from rfl,
        treeSet_neg _ _ _ _ _ _ _ _ hk] at hslot
      exact hwf lv a b i hslot
  · rw [lookupPage_eq_inflight s id htree]
    exact ⟨⟨c, chainRep_congr s _ c hrep rfl rfl rfl rfl⟩, hwf⟩
  · rw [lookupPage_eq_entry s id e htree]
    have heMem : e ∈ c := hrep.complete e (hwf _ _ _ _ htree)
    have hrep2 := chainRep_congr s
      { s with stats := { s.stats with
          totalFrameRequests := s.stats.totalFrameRequests + 1
          hitFrameRequests := s.stats.hitFrameRequests + 1 } } c hrep rfl rfl rfl rfl
    refine ⟨⟨e :: c.erase e, chainRep_spliceToMru _ c e hrep2 heMem⟩, ?_⟩
    intro lv a b i hslot
    rw [spliceToMru_tree] at hslot
    exact hwf lv a b i hslot

theorem cacheInv_accommodatePage (s : CacheState) (id : PageId) (h : CacheInv s) :
    CacheInv (accommodatePage s id).1 := by
  obtain ⟨⟨c, hrep⟩, hwf⟩ := h
  obtain ⟨halloc2, hrep2⟩ := chainRep_allocPageEntry s c hrep
  have hfst : (accommodatePage s id).1 =
      { (allocPageEntry s).1 with
        tree := treeSet (allocPageEntry s).1.tree (pageIdExtractMipLevel id)
          (pageIdExtractPageX id) (pageIdExtractPageY id) (TreeSlot.entry (allocPageEntry s).2)
        entryPageId := fun i => if i = (allocPageEntry s).2 then id
          else (allocPageEntry s).1.entryPageId i
        stats := { (allocPageEntry s).1.stats with
          servicedRequests := (allocPageEntry s).1.stats.servicedRequests + 1 } } := rfl
  have hlruMem : s.lru ∈ c := by
    have hcne : c ≠ [] := by
      intro hn
      have hlen := hrep.sizeEq
      rw [hn] at hlen
      simp [TotalCachePages, CacheSizeInPages] at hlen
    have h := hrep.lastLru
    rw [List.getLast?_eq_getLast c hcne] at h
    have h2 : c.getLast hcne = s.lru := by simpa using h
    rw [← h2]
    exact List.getLast_mem hcne
  have hlruLt : s.lru < TotalCachePages := hrep.bounded s.lru hlruMem
  constructor
  · refine ⟨s.lru :: c.erase s.lru, ?_⟩
    rw [hfst]
    exact chainRep_congr (allocPageEntry s).1 _ _ hrep2 rfl rfl rfl rfl
  · rw [hfst]
    intro lv a b i hslot
    by_cases hk : lv = pageIdExtractMipLevel id ∧ a = pageIdExtractPageX id
        ∧ b = pageIdExtractPageY id
    · rw [show ({ (allocPageEntry s).1 with
          tree := treeSet (allocPageEntry s).1.tree (pageIdExtractMipLevel id)
            (pageIdExtractPageX id) (pageIdExtractPageY id)
            (TreeSlot.entry (allocPageEntry s).2)
          entryPageId := fun i => if i = (allocPageEntry s).2 then id
            else (allocPageEntry s).1.entryPageId i
          stats := { (allocPageEntry s).1.stats with
            servicedRequests := (allocPageEntry s).1.stats.servicedRequests + 1 } }
            : CacheState).tree
          = treeSet (allocPageEntry s).1.tree (pageIdExtractMipLevel id)
            (pageIdExtractPageX id) (pageIdExtractPageY id)
            (TreeSlot.entry (allocPageEntry s).2) from rfl,
        treeSet_pos _ _ _ _ _ _ _ _ hk] at hslot
      have hie : i = (allocPageEntry s).2 := by
        injection hslot.symm
      rw [hie, halloc2]
      exact hlruLt
    · rw [show ({ (allocPageEntry s).1 with
          tree := treeSet (allocPageEntry s).1.tree (pageIdExtractMipLevel id)
            (pageIdExtractPageX id) (pageIdExtractPageY id)
            (TreeSlot.entry (allocPageEntry s).2)
          entryPageId := fun i => if i = (allocPageEntry s).2 then id
            else (allocPageEntry s).1.entryPageId i
          stats := { (allocPageEntry s).1.stats with
            servicedRequests := (allocPageEntry s).1.stats.servicedRequests + 1 } }
            : CacheState).tree
          = treeSet (allocPageEntry s).1.tree (pageIdExtractMipLevel id)
            (pageIdExtractPageX id) (pageIdExtractPageY id)
            (TreeSlot.entry (allocPageEntry s).2) from rfl,
        treeSet_neg _ _ _ _ _ _ _ _ hk, allocPageEntry_tree] at hslot
      by_cases hvalid : s.entryPageId s.lru ≠ InvalidPageId
      · rw [if_pos hvalid] at hslot
        unfold treeSetId at hslot
        by_cases hk2 : lv = pageIdExtractMipLevel (s.entryPageId s.lru)
            ∧ a = pageIdExtractPageX (s.entryPageId s.lru)
            ∧ b = pageIdExtractPageY (s.entryPageId s.lru)
        · rw [treeSet_pos _ _ _ _ _ _ _ _ hk2] at hslot
          exact absurd hslot (by simp)
        · rw [treeSet_neg _ _ _ _ _ _ _ _ hk2] at hslot
          exact hwf lv a b i hslot
      · rw [if_neg hvalid] at hslot
        exact hwf lv a b i hslot

/-- Public cache operations considered by the chain-validity claim. -/
inductive CacheOp where
  | lookup (id : PageId)
  | accommodate (id : PageId)
  deriving DecidableEq, Repr

def applyCacheOp (s : CacheState) (op : CacheOp) : CacheState :=
  match op with
  | CacheOp.lookup id => (lookupPage s id).1
  | CacheOp.accommodate id => (accommodatePage s id).1

def applyCacheOps (s : CacheState) (ops : List CacheOp) : CacheState :=
  ops.foldl applyCacheOp s

def cacheOpPageId : CacheOp → PageId
  | CacheOp.lookup id => id
  | CacheOp.accommodate id => id

/-- The page id of the operation satisfies `validPageRequest`
(the `assert` at the top of `lookupPage` and `accommodatePage`). -/
def cacheOpInRange (dims : CachePageTreeDims) (op : CacheOp) : Bool :=
  validPageRequest dims (pageIdExtractMipLevel (cacheOpPageId op))
    (pageIdExtractPageX (cacheOpPageId op)) (pageIdExtractPageY (cacheOpPageId op))

theorem cacheInv_applyCacheOps (ops : List CacheOp) :
    ∀ s : CacheState, CacheInv s → CacheInv (applyCacheOps s ops) := by
  induction ops with
  | nil => exact fun s h => h
  | cons op rest ih =>
    intro s h
    have hstep : CacheInv (applyCacheOp s op) := by
      cases op with
      | lookup id => exact cacheInv_lookupPage s id h
      | accommodate id => exact cacheInv_accommodatePage s id h
    exact ih (applyCacheOp s op) hstep

/-- `spliceToMru` never touches the stats. -/
theorem spliceToMru_stats (s : CacheState) (e : Nat) : (spliceToMru s e).stats = s.stats := by
  unfold spliceToMru
  by_cases h : e = s.mru
  · rw [if_pos h]
  · rw [if_neg h]
    rcases hnx : s.next e with - | nx
    · rcases hpv : s.prev e with - | pv
      · rfl
      · rfl
    · rcases hpv : s.prev e with - | pv
      · rfl
      · rfl

/-- A concrete dimension table used by the witnesses: a virtual
texture of 32×32 pages at level 0 with 6 mip levels. -/
def demoDims : CachePageTreeDims :=
  { numLevels := 6
    numPagesX := fun l => 32 / 2 ^ l
    numPagesY := fun l => 32 / 2 ^ l }

/-- C1: for an in-range id, `lookupPage` always increments
`totalFrameRequests`; on a null slot it marks the slot in-flight,
increments `newFrameRequests` and returns Unavailable; on the
in-flight sentinel it increments `reFrameRequests` and returns
InFlight; on a real entry it increments `hitFrameRequests`, splices
the entry to the head of the LRU chain (including when the entry was
the LRU tail) and returns Cached. -/
theorem lookupPage_claim_C1 (dims : CachePageTreeDims) (s : CacheState) (c : List Nat)
    (id : Nat) (hrep : ChainRep s c) (hwf : TreeWF s)
    (_hvalid : validPageRequest dims (pageIdExtractMipLevel id) (pageIdExtractPageX id)
      (pageIdExtractPageY id) = true) :
    (lookupPage s id).1.stats.totalFrameRequests = s.stats.totalFrameRequests + 1 ∧
    (s.tree (pageIdExtractMipLevel id) (pageIdExtractPageX id) (pageIdExtractPageY id)
        = TreeSlot.null →
      (lookupPage s id).2 = CachePageStatus.Unavailable ∧
      (lookupPage s id).1.tree (pageIdExtractMipLevel id) (pageIdExtractPageX id)
        (pageIdExtractPageY id) = TreeSlot.inflight ∧
      (lookupPage s id).1.stats.newFrameRequests = s.stats.newFrameRequests + 1) ∧
    (s.tree (pageIdExtractMipLevel id) (pageIdExtractPageX id) (pageIdExtractPageY id)
        = TreeSlot.inflight →
      (lookupPage s id).2 = CachePageStatus.InFlight ∧
      (lookupPage s id).1.stats.reFrameRequests = s.stats.reFrameRequests + 1 ∧
      (lookupPage s id).1.tree = s.tree) ∧
    (∀ e, s.tree (pageIdExtractMipLevel id) (pageIdExtractPageX id) (pageIdExtractPageY id)
        = TreeSlot.entry e →
      (lookupPage s id).2 = CachePageStatus.Cached ∧
      (lookupPage s id).1.stats.hitFrameRequests = s.stats.hitFrameRequests + 1 ∧
      ChainRep (lookupPage s id).1 (e :: c.erase e)) := by
  refine ⟨?_, ?_, ?_, ?_⟩
  · rcases htree : s.tree (pageIdExtractMipLevel id) (pageIdExtractPageX id)
        (pageIdExtractPageY id) with - | - | e
    · rw [lookupPage_eq_null s id htree]
    · rw [lookupPage_eq_inflight s id htree]
    · rw [lookupPage_eq_entry s id e htree]
      show (spliceToMru _ e).stats.totalFrameRequests = _
      rw [spliceToMru_stats]
  · intro htree
    rw [lookupPage_eq_null s id htree]
    exact ⟨rfl, treeSet_pos _ _ _ _ _ _ _ _ ⟨rfl, rfl, rfl⟩, rfl⟩
  · intro htree
    rw [lookupPage_eq_inflight s id htree]
    exact ⟨rfl, rfl, rfl⟩
  · intro e htree
    rw [lookupPage_eq_entry s id e htree]
    refine ⟨rfl, ?_, ?_⟩
    · show (spliceToMru _ e).stats.hitFrameRequests = _
      rw [spliceToMru_stats]
    · exact chainRep_spliceToMru _ c e
        (chainRep_congr s _ c hrep rfl rfl rfl rfl)
        (hrep.complete e (hwf _ _ _ _ htree))

theorem lookupPage_claim_C1_witness :
    (lookupPage initialCacheState 0).1.stats.totalFrameRequests
      = initialCacheState.stats.totalFrameRequests + 1 :=
  (lookupPage_claim_C1 demoDims initialCacheState (List.range 256) 0
    chainRep_initial treeWF_initial (by decide)).1

-- ==================================================================
-- Claim C2: accommodatePage and strict LRU eviction
-- ==================================================================

/-- The (mipLevel, pageX, pageY) key a page id addresses in the
cache page tree. -/
def tripleOf (id : PageId) : Nat × Nat × Nat :=
  (pageIdExtractMipLevel id, pageIdExtractPageX id, pageIdExtractPageY id)

theorem tripleOf_ne_components (a b : PageId) (h : tripleOf a ≠ tripleOf b) :
    ¬(pageIdExtractMipLevel a = pageIdExtractMipLevel b ∧
      pageIdExtractPageX a = pageIdExtractPageX b ∧
      pageIdExtractPageY a = pageIdExtractPageY b) := by
  intro hc
  exact h (by unfold tripleOf; rw [hc.1, hc.2.1, hc.2.2])

/-- One `accommodatePage` call, keeping only the state. -/
def accStep (s : CacheState) (id : PageId) : CacheState := (accommodatePage s id).1

/-- The state after accommodating the first `k` pages of `ds`,
starting from a purged cache. -/
def accAfter (ds : List PageId) (k : Nat) : CacheState :=
  (ds.take k).foldl accStep initialCacheState

/-- First component of `accommodatePage_eq`. -/
theorem accommodatePage_fst_eq (s : CacheState) (id : PageId) (pv : Nat)
    (hpv : s.prev s.lru = some pv) :
    (accommodatePage s id).1 =
      { s with
          tree := treeSet
            (if s.entryPageId s.lru ≠ InvalidPageId
              then treeSetId s.tree (s.entryPageId s.lru) TreeSlot.null else s.tree)
            (pageIdExtractMipLevel id) (pageIdExtractPageX id) (pageIdExtractPageY id)
            (TreeSlot.entry s.lru)
          entryPageId := fun i => if i = s.lru then id else s.entryPageId i
          next := updf (updf s.next pv none) s.lru (some s.mru)
          prev := updf (updf s.prev s.lru none) s.mru (some s.lru)
          mru := s.lru
          lru := pv
          stats := { s.stats with servicedRequests := s.stats.servicedRequests + 1 } } := by
  rw [accommodatePage_eq s id pv hpv]

/-- Under the chain invariant the LRU tail has a predecessor. -/
theorem chainRep_prev_lru (s : CacheState) (c : List Nat) (hrep : ChainRep s c) :
    ∃ pv, s.prev s.lru = some pv := by
  have hcne : c ≠ [] := by
    intro h
    have hlen := hrep.sizeEq
    rw [h] at hlen
    simp [TotalCachePages, CacheSizeInPages] at hlen
  have hlast : c.getLast hcne = s.lru := by
    have h := hrep.lastLru
    rw [List.getLast?_eq_getLast c hcne] at h
    simpa using h
  obtain ⟨l₁, hc⟩ : ∃ l₁, c = l₁ ++ [s.lru] := by
    refine ⟨c.dropLast, ?_⟩
    rw [← hlast]
    exact (List.dropLast_append_getLast hcne).symm
  have hl₁ne : l₁ ≠ [] := by
    intro h
    have hlen := hrep.sizeEq
    rw [hc, h] at hlen
    simp [TotalCachePages, CacheSizeInPages] at hlen
  refine ⟨l₁.getLast hl₁ne, ?_⟩
  have h := hrep.prevChain
  rw [hc, List.chain'_append] at h
  exact h.2.2 _ (by rw [List.getLast?_eq_getLast l₁ hl₁ne]; rfl) s.lru rfl

theorem take_succ_getD {α : Type} (d : α) :
    ∀ (l : List α) (k : Nat), k < l.length → l.take (k + 1) = l.take k ++ [l.getD k d]
  | [], k, h => by simp at h
  | a :: t, 0, _ => by simp
  | a :: t, k + 1, h => by
    simp only [List.take_succ_cons, List.getD_cons_succ]
    rw [take_succ_getD d t k (by simpa using h)]
    simp

theorem accAfter_succ (ds : List PageId) (k : Nat) (h : k < ds.length) :
    accAfter ds (k + 1) = accStep (accAfter ds k) (ds.getD k 0) := by
  unfold accAfter
  rw [take_succ_getD 0 ds k h, List.foldl_append]
  rfl

/-- Inductive characterization of the cache state after accommodating
`k ≤ 256` pages with pairwise-distinct tree keys into a purged cache:
entry `255 - j` holds the `j`-th page, the untouched entries keep an
invalid page id and their initial links, the LRU tail is the untouched
entry with the highest index (entry `255`, the first one allocated,
once all 256 entries are used), and every accommodated page is
published in the tree. -/
structure C2Inv (ds : List PageId) (k : Nat) (s : CacheState) : Prop where
  mruEq : s.mru = if k = 0 then 0 else 256 - k
  lruEq : s.lru = if k ≤ 255 then 255 - k else 255
  prevInit : ∀ i, 1 ≤ i → i + k ≤ 255 → s.prev i = some (i - 1)
  prevZero : 1 ≤ k → k ≤ 255 → s.prev 0 = some 255
  prevUsed : ∀ i, 256 - k ≤ i → i ≤ 254 → s.prev (i + 1) = some i
  pidInvalid : ∀ i, i + k ≤ 255 → s.entryPageId i = InvalidPageId
  pidUsed : ∀ i, 256 - k ≤ i → i ≤ 255 → s.entryPageId i = ds.getD (255 - i) 0
  treeUsed : ∀ j, j < k → s.tree (pageIdExtractMipLevel (ds.getD j 0))
      (pageIdExtractPageX (ds.getD j 0)) (pageIdExtractPageY (ds.getD j 0))
      = TreeSlot.entry (255 - j)

theorem c2Inv_base (ds : List PageId) : C2Inv ds 0 initialCacheState := by
  refine ⟨rfl, rfl, ?_, ?_, ?_, ?_, ?_, ?_⟩
  · intro i h1 h2
    simp only [initialCacheState]
    rw [if_neg (by omega)]
  · intro h1 _
    exact absurd h1 (by omega)
  · intro i h1 h2
    exact absurd h2 (by omega)
  · intro i _
    rfl
  · intro i h1 h2
    exact absurd h2 (by omega)
  · intro j hj
    exact absurd hj (by omega)

theorem c2Inv_step (ds : List PageId) (k : Nat) (s : CacheState)
    (hk : k ≤ 255)
    (hdist : ∀ j, j < 257 → ∀ i, i < j → tripleOf (ds.getD i 0) ≠ tripleOf (ds.getD j 0))
    (hinv : C2Inv ds k s) :
    C2Inv ds (k + 1) (accStep s (ds.getD k 0)) := by
  have hlru : s.lru = 255 - k := by
    rw [hinv.lruEq, if_pos hk]
  have hmru := hinv.mruEq
  obtain ⟨pv, hpv, hpvEq⟩ :
      ∃ pv, s.prev s.lru = some pv ∧ pv = (if k + 1 ≤ 255 then 255 - (k + 1) else 255) := by
    by_cases hk255 : k = 255
    · refine ⟨255, ?_, ?_⟩
      · rw [hlru, hk255]
        exact (by simpa using hinv.prevZero (by omega) (by omega))
      · rw [if_neg (by omega)]
    · refine ⟨254 - k, ?_, ?_⟩
      · rw [hlru]
        have h := hinv.prevInit (255 - k) (by omega) (by omega)
        rw [h]
        congr 1
        omega
      · rw [if_pos (by omega)]
        omega
  have hNoEvict : s.entryPageId s.lru = InvalidPageId := by
    rw [hlru]
    exact hinv.pidInvalid (255 - k) (by omega)
  have hrec : accStep s (ds.getD k 0) =
      { s with
          tree := treeSet
            (if s.entryPageId s.lru ≠ InvalidPageId
              then treeSetId s.tree (s.entryPageId s.lru) TreeSlot.null else s.tree)
            (pageIdExtractMipLevel (ds.getD k 0)) (pageIdExtractPageX (ds.getD k 0))
            (pageIdExtractPageY (ds.getD k 0)) (TreeSlot.entry s.lru)
          entryPageId := fun i => if i = s.lru then ds.getD k 0 else s.entryPageId i
          next := updf (updf s.next pv none) s.lru (some s.mru)
          prev := updf (updf s.prev s.lru none) s.mru (some s.lru)
          mru := s.lru
          lru := pv
          stats := { s.stats with servicedRequests := s.stats.servicedRequests + 1 } } :=
    accommodatePage_fst_eq s (ds.getD k 0) pv hpv
  have hprev2 : (accStep s (ds.getD k 0)).prev
      = updf (updf s.prev s.lru none) s.mru (some s.lru) := by rw [hrec]
  have hpid2 : (accStep s (ds.getD k 0)).entryPageId
      = fun i => if i = s.lru then ds.getD k 0 else s.entryPageId i := by rw [hrec]
  have htree2 : (accStep s (ds.getD k 0)).tree
      = treeSet s.tree (pageIdExtractMipLevel (ds.getD k 0))
          (pageIdExtractPageX (ds.getD k 0)) (pageIdExtractPageY (ds.getD k 0))
          (TreeSlot.entry s.lru) := by
    rw [hrec]
    rw [hNoEvict]
    rw [if_neg (by simp)]
  have hmru2 : (accStep s (ds.getD k 0)).mru = s.lru := by rw [hrec]
  have hlru2 : (accStep s (ds.getD k 0)).lru = pv := by rw [hrec]
  refine ⟨?_, ?_, ?_, ?_, ?_, ?_, ?_, ?_⟩
  · rw [hmru2, hlru, if_neg (Nat.succ_ne_zero k)]
    omega
  · rw [hlru2, hpvEq]
  · intro i h1 h2
    rw [hprev2]
    have hne1 : i ≠ s.mru := by
      rw [hmru]
      by_cases hzero : k = 0
      · rw [if_pos hzero]; omega
      · rw [if_neg hzero]; omega
    have hne2 : i ≠ s.lru := by rw [hlru]; omega
    rw [updf_other _ _ _ _ hne1, updf_other _ _ _ _ hne2]
    exact hinv.prevInit i h1 (by omega)
  · intro h1 h2
    rw [hprev2]
    by_cases hzero : k = 0
    · have hm : s.mru = 0 := by rw [hmru, if_pos hzero]
      rw [← hm, updf_same, hlru, hzero]
    · have hne1 : (0 : Nat) ≠ s.mru := by rw [hmru, if_neg hzero]; omega
      have hne2 : (0 : Nat) ≠ s.lru := by rw [hlru]; omega
      rw [updf_other _ _ _ _ hne1, updf_other _ _ _ _ hne2]
      exact hinv.prevZero (by omega) (by omega)
  · intro i h1 h2
    rw [hprev2]
    by_cases hzero : k = 0
    · exact absurd h2 (by omega)
    · by_cases hb : i + 1 = s.mru
      · rw [hb, updf_same, hlru]
        have heq : 255 - k = i := by
          rw [hmru, if_neg hzero] at hb
          omega
        rw [heq]
      · rw [hmru, if_neg hzero] at hb
        have hne1 : i + 1 ≠ s.mru := by rw [hmru, if_neg hzero]; exact hb
        have hne2 : i + 1 ≠ s.lru := by rw [hlru]; omega
        rw [updf_other _ _ _ _ hne1, updf_other _ _ _ _ hne2]
        exact hinv.prevUsed i (by omega) h2
  · intro i h
    rw [hpid2]
    simp only
    rw [if_neg (show i ≠ s.lru by rw [hlru]; omega)]
    exact hinv.pidInvalid i (by omega)
  · intro i h1 h2
    rw [hpid2]
    simp only
    by_cases hb : i = s.lru
    · rw [if_pos hb]
      have heq : 255 - i = k := by
        rw [hlru] at hb
        omega
      rw [heq]
    · rw [if_neg hb]
      rw [hlru] at hb
      exact hinv.pidUsed i (by omega) h2
  · intro j hj
    rw [htree2]
    by_cases hjk : j = k
    · rw [hjk, treeSet_pos _ _ _ _ _ _ _ _ ⟨rfl, rfl, rfl⟩, hlru]
    · have hjlt : j < k := by omega
      rw [treeSet_neg _ _ _ _ _ _ _ _
        (tripleOf_ne_components _ _ (hdist k (by omega) j hjlt))]
      exact hinv.treeUsed j hjlt

theorem c2Inv_all (ds : List PageId) (hlen : ds.length = 257)
    (hdist : ∀ j, j < 257 → ∀ i, i < j → tripleOf (ds.getD i 0) ≠ tripleOf (ds.getD j 0)) :
    ∀ k, k ≤ 256 → C2Inv ds k (accAfter ds k) := by
  intro k
  induction k with
  | zero => exact fun _ => c2Inv_base ds
  | succ k ih =>
    intro hk1
    rw [accAfter_succ ds k (by omega)]
    exact c2Inv_step ds k _ (by omega) hdist (ih (by omega))

/-- Accommodating 257 pages with pairwise-distinct tree keys into a
purged cache evicts exactly the first-accommodated page: its tree slot
is null afterwards, while the slots of pages 2..257 all still hold
real cache entries. -/
theorem accommodate257 (ds : List PageId) (hlen : ds.length = 257)
    (hdist : ∀ j, j < 257 → ∀ i, i < j → tripleOf (ds.getD i 0) ≠ tripleOf (ds.getD j 0))
    (hid0 : ds.getD 0 0 ≠ InvalidPageId) :
    (ds.foldl accStep initialCacheState).tree
        (pageIdExtractMipLevel (ds.getD 0 0)) (pageIdExtractPageX (ds.getD 0 0))
        (pageIdExtractPageY (ds.getD 0 0)) = TreeSlot.null ∧
    ∀ j, 1 ≤ j → j < 257 →
      ((ds.foldl accStep initialCacheState).tree (pageIdExtractMipLevel (ds.getD j 0))
        (pageIdExtractPageX (ds.getD j 0))
        (pageIdExtractPageY (ds.getD j 0))).isEntry = true := by
  have hfull : ds.foldl accStep initialCacheState = accAfter ds 257 := by
    unfold accAfter
    rw [← hlen, List.take_length]
  have hstep : accAfter ds 257 = accStep (accAfter ds 256) (ds.getD 256 0) :=
    accAfter_succ ds 256 (by omega)
  have h256 := c2Inv_all ds hlen hdist 256 (by omega)
  have hlru : (accAfter ds 256).lru = 255 := by
    rw [h256.lruEq, if_neg (by omega)]
  have hpid : (accAfter ds 256).entryPageId (accAfter ds 256).lru = ds.getD 0 0 := by
    rw [hlru]
    have h := h256.pidUsed 255 (by omega) (by omega)
    simpa using h
  have hpv : (accAfter ds 256).prev (accAfter ds 256).lru = some 254 := by
    rw [hlru]
    exact h256.prevUsed 254 (by omega) (by omega)
  have hrec : accStep (accAfter ds 256) (ds.getD 256 0) =
      { accAfter ds 256 with
          tree := treeSet
            (treeSet (accAfter ds 256).tree (pageIdExtractMipLevel (ds.getD 0 0))
              (pageIdExtractPageX (ds.getD 0 0)) (pageIdExtractPageY (ds.getD 0 0))
              TreeSlot.null)
            (pageIdExtractMipLevel (ds.getD 256 0)) (pageIdExtractPageX (ds.getD 256 0))
            (pageIdExtractPageY (ds.getD 256 0)) (TreeSlot.entry (accAfter ds 256).lru)
          entryPageId := fun i => if i = (accAfter ds 256).lru then ds.getD 256 0
            else (accAfter ds 256).entryPageId i
          next := updf (updf (accAfter ds 256).next 254 none) (accAfter ds 256).lru
            (some (accAfter ds 256).mru)
          prev := updf (updf (accAfter ds 256).prev (accAfter ds 256).lru none)
            (accAfter ds 256).mru (some (accAfter ds 256).lru)
          mru := (accAfter ds 256).lru
          lru := 254
          stats := { (accAfter ds 256).stats with
            servicedRequests := (accAfter ds 256).stats.servicedRequests + 1 } } := by
    have h0 := accommodatePage_fst_eq (accAfter ds 256) (ds.getD 256 0) 254 hpv
    rw [hpid, if_pos hid0] at h0
    exact h0
  have htreeF : (accAfter ds 257).tree =
      treeSet
        (treeSet (accAfter ds 256).tree (pageIdExtractMipLevel (ds.getD 0 0))
          (pageIdExtractPageX (ds.getD 0 0)) (pageIdExtractPageY (ds.getD 0 0))
          TreeSlot.null)
        (pageIdExtractMipLevel (ds.getD 256 0)) (pageIdExtractPageX (ds.getD 256 0))
        (pageIdExtractPageY (ds.getD 256 0)) (TreeSlot.entry (accAfter ds 256).lru) := by
    rw [hstep, hrec]
  constructor
  · rw [hfull, htreeF]
    rw [treeSet_neg _ _ _ _ _ _ _ _
      (tripleOf_ne_components _ _ (hdist 256 (by omega) 0 (by omega)))]
    exact treeSet_pos _ _ _ _ _ _ _ _ ⟨rfl, rfl, rfl⟩
  · intro j h1 h2
    rw [hfull, htreeF]
    by_cases hj256 : j = 256
    · rw [hj256, treeSet_pos _ _ _ _ _ _ _ _ ⟨rfl, rfl, rfl⟩]
      rfl
    · rw [treeSet_neg _ _ _ _ _ _ _ _
        (tripleOf_ne_components _ _ (hdist 256 (by omega) j (by omega)))]
      rw [treeSet_neg _ _ _ _ _ _ _ _
        (tripleOf_ne_components _ _ (Ne.symm (hdist j (by omega) 0 (by omega))))]
      rw [h256.treeUsed j (by omega)]
      rfl

/-- C2: `accommodatePage(id)` reuses the entry that was the LRU tail:
it re-points the tree slot for `id` at that entry, stores `id` in it,
splices it to the MRU head, clears the evicted page's tree slot when
the tail held a valid page with a different tree key, bumps
`servicedRequests`, and returns the entry's fixed cache coordinate;
and accommodating 257 pages with distinct tree keys into a purged
cache evicts exactly the first-accommodated page and no other. -/
theorem accommodatePage_claim_C2 (dims : CachePageTreeDims) (s : CacheState) (c : List Nat)
    (id : Nat) (hrep : ChainRep s c)
    (_hvalid : validPageRequest dims (pageIdExtractMipLevel id) (pageIdExtractPageX id)
      (pageIdExtractPageY id) = true) :
    ((accommodatePage s id).2 = (cacheCoordX s.lru, cacheCoordY s.lru) ∧
     (accommodatePage s id).1.entryPageId s.lru = id ∧
     (accommodatePage s id).1.tree (pageIdExtractMipLevel id) (pageIdExtractPageX id)
       (pageIdExtractPageY id) = TreeSlot.entry s.lru ∧
     (accommodatePage s id).1.stats.servicedRequests = s.stats.servicedRequests + 1 ∧
     (s.entryPageId s.lru ≠ InvalidPageId →
       ¬(pageIdExtractMipLevel (s.entryPageId s.lru) = pageIdExtractMipLevel id ∧
         pageIdExtractPageX (s.entryPageId s.lru) = pageIdExtractPageX id ∧
         pageIdExtractPageY (s.entryPageId s.lru) = pageIdExtractPageY id) →
       (accommodatePage s id).1.tree (pageIdExtractMipLevel (s.entryPageId s.lru))
         (pageIdExtractPageX (s.entryPageId s.lru))
         (pageIdExtractPageY (s.entryPageId s.lru)) = TreeSlot.null) ∧
     ChainRep (accommodatePage s id).1 (s.lru :: c.erase s.lru)) ∧
    (∀ ds : List PageId, ds.length = 257 →
      (∀ j, j < 257 → ∀ i, i < j → tripleOf (ds.getD i 0) ≠ tripleOf (ds.getD j 0)) →
      ds.getD 0 0 ≠ InvalidPageId →
      (ds.foldl accStep initialCacheState).tree (pageIdExtractMipLevel (ds.getD 0 0))
        (pageIdExtractPageX (ds.getD 0 0)) (pageIdExtractPageY (ds.getD 0 0))
        = TreeSlot.null ∧
      ∀ j, 1 ≤ j → j < 257 →
        ((ds.foldl accStep initialCacheState).tree (pageIdExtractMipLevel (ds.getD j 0))
          (pageIdExtractPageX (ds.getD j 0))
          (pageIdExtractPageY (ds.getD j 0))).isEntry = true) := by
  obtain ⟨pv, hpv⟩ := chainRep_prev_lru s c hrep
  have hrec := accommodatePage_fst_eq s id pv hpv
  constructor
  · refine ⟨?_, ?_, ?_, ?_, ?_, ?_⟩
    · rw [accommodatePage_eq s id pv hpv]
    · rw [hrec]
      simp
    · rw [hrec]
      exact treeSet_pos _ _ _ _ _ _ _ _ ⟨rfl, rfl, rfl⟩
    · rw [hrec]
    · intro hval hne
      rw [hrec]
      refine (treeSet_neg _ _ _ _ _ _ _ _ hne).trans ?_
      rw [if_pos hval]
      unfold treeSetId
      exact treeSet_pos _ _ _ _ _ _ _ _ ⟨rfl, rfl, rfl⟩
    · have halloc := chainRep_allocPageEntry s c hrep
      rw [hrec]
      refine chainRep_congr (allocPageEntry s).1 _ _ halloc.2 ?_ ?_ ?_ ?_
      · rw [allocPageEntry_eq s pv hpv]
      · rw [allocPageEntry_eq s pv hpv]
      · rw [allocPageEntry_eq s pv hpv]
      · rw [allocPageEntry_eq s pv hpv]
  · exact fun ds h1 h2 h3 => accommodate257 ds h1 h2 h3

/-- 257 distinct in-range page ids: the level-0 pages of a 32×32-page
texture, in row-major order. -/
def c2PageIds : List PageId :=
  (List.range 257).map (fun k => makePageId (k % 32) (k / 32) 0 0)

/-- Distinct tree keys, index-wise, follow from `Nodup` of the mapped
key list (the form a witness can decide cheaply). -/
theorem getD_tripleOf_ne_of_nodup (ds : List PageId) (hlen : ds.length = 257)
    (h : (ds.map tripleOf).Nodup) :
    ∀ j, j < 257 → ∀ i, i < j → tripleOf (ds.getD i 0) ≠ tripleOf (ds.getD j 0) := by
  intro j hj i hij
  have hj2 : j < ds.length := by omega
  have hi2 : i < ds.length := by omega
  rw [List.getD_eq_getElem ds 0 hi2, List.getD_eq_getElem ds 0 hj2]
  intro heq
  have hi3 : i < (ds.map tripleOf).length := by simpa using hi2
  have hj3 : j < (ds.map tripleOf).length := by simpa using hj2
  have hmi : (ds.map tripleOf)[i] = (ds.map tripleOf)[j] := by
    rw [List.getElem_map, List.getElem_map]
    exact heq
  have := (List.Nodup.getElem_inj_iff h).mp hmi
  omega

/-- The 257 scenario ids have pairwise-distinct tree keys. -/
theorem c2PageIds_keys_nodup : (c2PageIds.map tripleOf).Nodup := by
  unfold c2PageIds
  rw [List.map_map]
  refine List.Nodup.map_on ?_ (List.nodup_range 257)
  intro x hx y hy hxy
  rw [List.mem_range] at hx hy
  simp only [Function.comp, tripleOf, pageIdExtractMipLevel_makePageId,
    pageIdExtractPageX_makePageId, pageIdExtractPageY_makePageId, Prod.mk.injEq] at hxy
  omega

theorem c2PageIds_length : c2PageIds.length = 257 := by
  unfold c2PageIds
  simp

theorem accommodatePage_claim_C2_witness :
    (c2PageIds.foldl accStep initialCacheState).tree
        (pageIdExtractMipLevel (c2PageIds.getD 0 0)) (pageIdExtractPageX (c2PageIds.getD 0 0))
        (pageIdExtractPageY (c2PageIds.getD 0 0)) = TreeSlot.null :=
  ((accommodatePage_claim_C2 demoDims initialCacheState (List.range 256) 0
      chainRep_initial (by decide)).2 c2PageIds c2PageIds_length
      (getD_tripleOf_ne_of_nodup c2PageIds c2PageIds_length c2PageIds_keys_nodup)
      (by decide)).1

/-- C3: after construction or `purgeCache` (the constructor ends in
`purgeCache()`, so both start from the same state), and after any
sequence of in-range `lookupPage` / `accommodatePage` calls, the LRU
chain remains a valid acyclic doubly-linked list of exactly 256 nodes
with `mru.prev == null` and `lru.next == null` — the `ChainRep`
predicate. -/
theorem lruChainValid_claim_C3 (dims : CachePageTreeDims) (s0 : CacheState)
    (ops : List CacheOp) (_hin : ∀ op ∈ ops, cacheOpInRange dims op = true) :
    ∃ c, ChainRep (applyCacheOps (purgeCache s0) ops) c :=
  (cacheInv_applyCacheOps ops (purgeCache s0) cacheInv_initial).1

theorem lruChainValid_claim_C3_witness :
    ∃ c, ChainRep (applyCacheOps (purgeCache initialCacheState)
      [CacheOp.lookup 0, CacheOp.accommodate 0, CacheOp.lookup 0]) c :=
  lruChainValid_claim_C3 demoDims initialCacheState
    [CacheOp.lookup 0, CacheOp.accommodate 0, CacheOp.lookup 0] (by decide)

-- ==================================================================
-- Page provider (vt_page_provider.cpp)
-- ==================================================================

/-- `PageProvider::MaxOutstandingPageRequests = 256`. -/
def MaxOutstandingPageRequests : Nat := 256

/-- `PageProvider::addPageRequest`: refuse — returning false, leaving
the counter untouched and dispatching nothing — exactly when the
counter equals `MaxOutstandingPageRequests`; otherwise dispatch one
load per page file of the target texture (`runAsyncRequest` /
`runImmediateRequest` loop over `numPageFiles` and increment
`outstandingRequests` once per dispatched load). -/
def addPageRequest (outstandingRequests : Nat) (numPageFiles : Nat) : Nat × Bool :=
  if outstandingRequests = MaxOutstandingPageRequests then (outstandingRequests, false)
  else (outstandingRequests + numPageFiles, true)

/-- Events touching the outstanding-request counter: an
`addPageRequest` against a texture with `numPageFiles` page files, or
one completion (`pushReadyRequest` decrements the counter once per
finished per-file load). -/
inductive ProviderEvent where
  | addRequest (numPageFiles : Nat)
  | completion
  deriving DecidableEq, Repr

/-- Run one event; the second component records whether every
`addPageRequest` so far was accepted. -/
def providerTraceStep (acc : Nat × Bool) (e : ProviderEvent) : Nat × Bool :=
  match e with
  | ProviderEvent.addRequest n =>
    let r := addPageRequest acc.1 n
    (r.1, acc.2 && r.2)
  | ProviderEvent.completion => (acc.1 - 1, acc.2)

/-- Counter after a sequence of events, starting from the
constructor's `outstandingRequests = 0`. -/
def runProviderTrace (events : List ProviderEvent) : Nat × Bool :=
  events.foldl providerTraceStep (0, true)

/-- An event is a completion or a single-file request — the situation
in which every accepted `addPageRequest` dispatches exactly one load. -/
def isSingleFileEvent : ProviderEvent → Bool
  | ProviderEvent.addRequest n => n == 1
  | ProviderEvent.completion => true

/-- The event trace refuting C4: 255 accepted single-file requests
followed by one accepted request against a texture with two page
files (`VirtualTexture` supports several page files per texture, and
`runAsyncRequest` increments the counter once per file). -/
def c4Events : List ProviderEvent :=
  List.replicate 255 (ProviderEvent.addRequest 1) ++ [ProviderEvent.addRequest 2]

set_option maxRecDepth 4000 in
/-- C4 counterexample: every request in the trace is accepted (so each
increment corresponds to a real dispatched load and there is no
completion missing), yet the counter ends at 257 > 256. -/
theorem addPageRequest_counterexample_C4 :
    (runProviderTrace c4Events).2 = true ∧
    MaxOutstandingPageRequests < (runProviderTrace c4Events).1 := by
  decide

theorem providerTrace_bounded (events : List ProviderEvent) :
    (∀ e ∈ events, isSingleFileEvent e = true) →
    ∀ acc : Nat × Bool, acc.1 ≤ MaxOutstandingPageRequests →
      (events.foldl providerTraceStep acc).1 ≤ MaxOutstandingPageRequests := by
  induction events with
  | nil => exact fun _ acc h => h
  | cons e rest ih =>
    intro hone acc h
    refine ih (fun e2 he2 => hone e2 (List.mem_cons_of_mem e he2)) _ ?_
    cases e with
    | completion =>
      show acc.1 - 1 ≤ MaxOutstandingPageRequests
      omega
    | addRequest n =>
      have hn : n = 1 := by
        have h1 := hone (ProviderEvent.addRequest n) (List.mem_cons_self _ _)
        simpa [isSingleFileEvent] using h1
      show (addPageRequest acc.1 n).1 ≤ MaxOutstandingPageRequests
      unfold addPageRequest
      by_cases hfull : acc.1 = MaxOutstandingPageRequests
      · rw [if_pos hfull]
        omega
      · rw [if_neg hfull]
        show acc.1 + n ≤ MaxOutstandingPageRequests
        unfold MaxOutstandingPageRequests at h hfull ⊢
        omega

/-- C4 (amended): `addPageRequest` refuses, without dispatching,
exactly when the counter has reached the limit; each dispatched
per-file load increments the counter and each completion decrements
it; and when every request targets a single-page-file texture the
counter never exceeds 256.  (With multi-page-file textures the bound
fails — see the counterexample.) -/
theorem addPageRequest_claim_C4 (events : List ProviderEvent)
    (hone : ∀ e ∈ events, isSingleFileEvent e = true) :
    (∀ outstanding n, outstanding = MaxOutstandingPageRequests →
      addPageRequest outstanding n = (outstanding, false)) ∧
    (∀ outstanding n, outstanding ≠ MaxOutstandingPageRequests →
      addPageRequest outstanding n = (outstanding + n, true)) ∧
    (runProviderTrace events).1 ≤ MaxOutstandingPageRequests := by
  refine ⟨?_, ?_, ?_⟩
  · intro o n h
    unfold addPageRequest
    rw [if_pos h]
  · intro o n h
    unfold addPageRequest
    rw [if_neg h]
  · exact providerTrace_bounded events hone (0, true) (by omega)

theorem addPageRequest_claim_C4_witness :
    (runProviderTrace [ProviderEvent.addRequest 1, ProviderEvent.completion]).1
      ≤ MaxOutstandingPageRequests :=
  (addPageRequest_claim_C4 [ProviderEvent.addRequest 1, ProviderEvent.completion]
    (by decide)).2.2

-- ==================================================================
-- Page indirection table (vt_page_indirection_table.cpp)
-- ==================================================================

/-- `PageTable::TableSizeInPages = 16` (vt_page_table.hpp). -/
def TableSizeInPages : Nat := 16

/-- The part of a `CacheEntry` read by `updateIndirectionTexture`:
`pageId` and the fixed `cacheCoord`. -/
structure IndirCacheEntry where
  pageId : Nat
  coordX : Nat
  coordY : Nat

/-- Function update for `Nat`-valued tables (an array store). -/
def updn (f : Nat → Nat) (i : Nat) (v : Nat) : Nat → Nat :=
  fun j => if j = i then v else f j

/-- The per-level page-write loop of `updateIndirectionTexture`
(both variants): for every pool entry `p < TotalCachePages`, skip it
unless `pageIdExtractMipLevel(pageId) == l && pageId != InvalidPageId`,
else store the encoded table entry at index `x + y * numPagesX[l]`.
The encoding of the written entry is the parameter `ev`. -/
def writeLevelPages (ev : Nat → IndirCacheEntry → Nat) (dims : CachePageTreeDims)
    (pages : Nat → IndirCacheEntry) (l : Nat) (tbl : Nat → Nat) : Nat → Nat :=
  (List.range TotalCachePages).foldl
    (fun t p =>
      if pageIdExtractMipLevel (pages p).pageId = l ∧ (pages p).pageId ≠ InvalidPageId then
        updn t (pageIdExtractPageX (pages p).pageId
            + pageIdExtractPageY (pages p).pageId * dims.numPagesX l)
          (ev l (pages p))
      else t) tbl

/-- Inner upsample loop over `x < destW` of one row `y`:
`dest[x + y*destW] = src[(x >> 1) + (y >> 1)*srcW]` (`x >> 1 = x / 2`). -/
def upsampleRow (srcW destW : Nat) (src : Nat → Nat) (y : Nat) (dest : Nat → Nat) :
    Nat → Nat :=
  (List.range destW).foldl
    (fun d x => updn d (x + y * destW) (src (x / 2 + y / 2 * srcW))) dest

/-- Outer upsample loop over `y < destH` ("Upsample for next level"). -/
def upsampleLevel (srcW destW destH : Nat) (src : Nat → Nat) (dest : Nat → Nat) :
    Nat → Nat :=
  (List.range destH).foldl (fun d y => upsampleRow srcW destW src y d) dest

/-- One iteration of the `for (l = numLevels-1; l >= 0; --l)` loop:
write the level-`l` cache pages into level `l`, then (when `l != 0`)
upsample the freshly written level `l` into level `l-1`, overwriting
its previous contents.  Levels other than `l` and `l-1` are untouched. -/
def updateStep (ev : Nat → IndirCacheEntry → Nat) (dims : CachePageTreeDims)
    (pages : Nat → IndirCacheEntry) (tbl : Nat → Nat → Nat) (l : Nat) :
    Nat → Nat → Nat :=
  fun l2 =>
    if l ≠ 0 ∧ l2 = l - 1 then
      upsampleLevel (dims.numPagesX l) (dims.numPagesX (l - 1)) (dims.numPagesY (l - 1))
        (writeLevelPages ev dims pages l (tbl l)) (tbl (l - 1))
    else if l2 = l then
      writeLevelPages ev dims pages l (tbl l)
    else tbl l2

/-- Recursive form of the descending level loop: `updateLevels n`
processes levels `n-1, n-2, …, 0` in that order. -/
def updateLevels (ev : Nat → IndirCacheEntry → Nat) (dims : CachePageTreeDims)
    (pages : Nat → IndirCacheEntry) : Nat → (Nat → Nat → Nat) → (Nat → Nat → Nat)
  | 0, tbl => tbl
  | n + 1, tbl => updateLevels ev dims pages n (updateStep ev dims pages tbl n)

/-- `updateIndirectionTexture(pages)`: the descending loop
`for (l = numLevels-1; l >= 0; --l)` folded over the level states.
(The trailing `glTexImage2D` re-upload loop does not change the table.) -/
def updateIndirectionTexture (ev : Nat → IndirCacheEntry → Nat) (dims : CachePageTreeDims)
    (pages : Nat → IndirCacheEntry) (tbl : Nat → Nat → Nat) : Nat → Nat → Nat :=
  ((List.range dims.numLevels).reverse).foldl (updateStep ev dims pages) tbl

/-- One RGBA-8888 `TableEntry` (vt_page_indirection_table.hpp: bytes
`cachePageX, cachePageY, scaleHigh, scaleLow`), packed as the single
`uint32_t` word that the Rgba8888 upsample loop copies.  The scale is
the `uint16_t` truncation of `(numPagesX[0] * 16) >> l`, split as
`scaleHigh = scale & 0xFF`, `scaleLow = scale >> 8`. -/
def tableEntryRgba8888 (dims : CachePageTreeDims) (l : Nat) (e : IndirCacheEntry) : Nat :=
  (e.coordX % 256) + (e.coordY % 256) * 256
    + ((dims.numPagesX 0 * 16 >>> l) % 65536 % 256) * 65536
    + ((dims.numPagesX 0 * 16 >>> l) % 65536 >>> 8) * 16777216

/-- One RGB-5:6:5 `TableEntry` (a `uint16_t`):
`((cacheCoord.x * 32 / TableSizeInPages) << 11) |
 ((log2VirtPagesWide - l) << 5) | (cacheCoord.y * 32 / TableSizeInPages)`
(`log2VirtPagesWide - l` is non-negative in every reachable call, so
`Nat` subtraction agrees with the C `int` subtraction there). -/
def tableEntryRgb565 (log2VirtPagesWide : Nat) (l : Nat) (e : IndirCacheEntry) : Nat :=
  ((e.coordX * 32 / TableSizeInPages <<< 11)
    ||| ((log2VirtPagesWide - l) <<< 5)
    ||| (e.coordY * 32 / TableSizeInPages)) % 65536

theorem updn_same (f : Nat → Nat) (i v : Nat) : updn f i v i = v := by
  simp [updn]

theorem updn_other (f : Nat → Nat) (i v j : Nat) (h : j ≠ i) : updn f i v j = f j := by
  simp [updn, h]

theorem foldl_updn_get (pos val : Nat → Nat) (l : List Nat) :
    ∀ (d : Nat → Nat) (idx : Nat), (∀ j ∈ l, pos j ≠ idx) →
      (l.foldl (fun t j => updn t (pos j) (val j)) d) idx = d idx := by
  induction l with
  | nil => intro d idx _; rfl
  | cons j0 rest ih =>
    intro d idx h
    rw [List.foldl_cons]
    refine (ih _ idx (fun k hk => h k (List.mem_cons_of_mem j0 hk))).trans ?_
    exact updn_other d _ _ idx (Ne.symm (h j0 (List.mem_cons_self j0 rest)))

theorem foldl_updn_hit (pos val : Nat → Nat) (l : List Nat) :
    ∀ (d : Nat → Nat) (i : Nat), i ∈ l → (∀ j ∈ l, j ≠ i → pos j ≠ pos i) →
      (l.foldl (fun t j => updn t (pos j) (val j)) d) (pos i) = val i := by
  induction l with
  | nil => intro d i hmem _; cases hmem
  | cons j0 rest ih =>
    intro d i hmem hinj
    rw [List.foldl_cons]
    by_cases hir : i ∈ rest
    · exact ih _ i hir (fun k hk hki => hinj k (List.mem_cons_of_mem j0 hk) hki)
    · have hj0 : j0 = i := by
        rcases List.mem_cons.mp hmem with h | h
        · exact h.symm
        · exact absurd h hir
      subst hj0
      refine (foldl_updn_get pos val rest _ (pos j0) ?_).trans (updn_same d (pos j0) (val j0))
      intro k hk
      exact hinj k (List.mem_cons_of_mem j0 hk) (fun hkj => hir (hkj ▸ hk))

theorem writeFold_untouched (ev : Nat → IndirCacheEntry → Nat) (dims : CachePageTreeDims)
    (pages : Nat → IndirCacheEntry) (l : Nat) (ps : List Nat) :
    ∀ (tbl : Nat → Nat) (idx : Nat),
      (∀ p ∈ ps, pageIdExtractMipLevel (pages p).pageId = l →
        (pages p).pageId ≠ InvalidPageId →
        pageIdExtractPageX (pages p).pageId
          + pageIdExtractPageY (pages p).pageId * dims.numPagesX l ≠ idx) →
      (ps.foldl (fun t p =>
        if pageIdExtractMipLevel (pages p).pageId = l ∧ (pages p).pageId ≠ InvalidPageId then
          updn t (pageIdExtractPageX (pages p).pageId
              + pageIdExtractPageY (pages p).pageId * dims.numPagesX l)
            (ev l (pages p))
        else t) tbl) idx = tbl idx := by
  induction ps with
  | nil => intro tbl idx _; rfl
  | cons p0 rest ih =>
    intro tbl idx h
    rw [List.foldl_cons]
    refine (ih _ idx (fun k hk => h k (List.mem_cons_of_mem p0 hk))).trans ?_
    by_cases hc : pageIdExtractMipLevel (pages p0).pageId = l
        ∧ (pages p0).pageId ≠ InvalidPageId
    · rw [if_pos hc]
      exact updn_other tbl _ _ idx
        (Ne.symm (h p0 (List.mem_cons_self p0 rest) hc.1 hc.2))
    · rw [if_neg hc]

/-- An index untouched by the page-write loop keeps its value. -/
theorem writeLevelPages_untouched (ev : Nat → IndirCacheEntry → Nat)
    (dims : CachePageTreeDims) (pages : Nat → IndirCacheEntry) (l : Nat)
    (tbl : Nat → Nat) (idx : Nat)
    (h : ∀ p ∈ List.range TotalCachePages, pageIdExtractMipLevel (pages p).pageId = l →
      (pages p).pageId ≠ InvalidPageId →
      pageIdExtractPageX (pages p).pageId
        + pageIdExtractPageY (pages p).pageId * dims.numPagesX l ≠ idx) :
    writeLevelPages ev dims pages l tbl idx = tbl idx :=
  writeFold_untouched ev dims pages l (List.range TotalCachePages) tbl idx h

/-- Uniqueness of the row/column decomposition of a table index. -/
theorem rowcol_inj (W x x2 y y2 : Nat) (hx : x < W) (hx2 : x2 < W)
    (h : x2 + y2 * W = x + y * W) : x2 = x ∧ y2 = y := by
  have hW : 0 < W := Nat.lt_of_le_of_lt (Nat.zero_le x) hx
  have hxx : x2 = x := by
    have h1 : (x2 + y2 * W) % W = x2 := by
      rw [Nat.add_mul_mod_self_right]; exact Nat.mod_eq_of_lt hx2
    have h2 : (x + y * W) % W = x := by
      rw [Nat.add_mul_mod_self_right]; exact Nat.mod_eq_of_lt hx
    rw [h, h2] at h1; exact h1.symm
  refine ⟨hxx, ?_⟩
  subst hxx
  have hyy : y2 * W = y * W := by omega
  exact Nat.eq_of_mul_eq_mul_right hW hyy

theorem upsampleRow_get (srcW destW : Nat) (src : Nat → Nat) (y : Nat) (d : Nat → Nat)
    (idx : Nat) (h : ∀ x ∈ List.range destW, x + y * destW ≠ idx) :
    upsampleRow srcW destW src y d idx = d idx :=
  foldl_updn_get (fun x => x + y * destW) (fun x => src (x / 2 + y / 2 * srcW))
    (List.range destW) d idx h

theorem upsampleRow_hit (srcW destW : Nat) (src : Nat → Nat) (y : Nat) (d : Nat → Nat)
    (x : Nat) (hx : x < destW) :
    upsampleRow srcW destW src y d (x + y * destW) = src (x / 2 + y / 2 * srcW) :=
  foldl_updn_hit (fun x2 => x2 + y * destW) (fun x2 => src (x2 / 2 + y / 2 * srcW))
    (List.range destW) d x (List.mem_range.mpr hx)
    (fun j _ hj => by show j + y * destW ≠ x + y * destW; omega)

theorem rowsFold_get (srcW destW : Nat) (src : Nat → Nat) (ys : List Nat) :
    ∀ (d : Nat → Nat) (idx : Nat),
      (∀ y ∈ ys, ∀ x ∈ List.range destW, x + y * destW ≠ idx) →
      (ys.foldl (fun t y2 => upsampleRow srcW destW src y2 t) d) idx = d idx := by
  induction ys with
  | nil => intro d idx _; rfl
  | cons y0 rest ih =>
    intro d idx h
    rw [List.foldl_cons]
    refine (ih _ idx (fun k hk => h k (List.mem_cons_of_mem y0 hk))).trans ?_
    exact upsampleRow_get srcW destW src y0 d idx (h y0 (List.mem_cons_self y0 rest))

theorem rowsFold_hit (srcW destW : Nat) (src : Nat → Nat) (ys : List Nat) :
    ∀ (d : Nat → Nat) (x y : Nat), x < destW → y ∈ ys →
      (ys.foldl (fun t y2 => upsampleRow srcW destW src y2 t) d) (x + y * destW)
        = src (x / 2 + y / 2 * srcW) := by
  induction ys with
  | nil => intro d x y _ hmem; cases hmem
  | cons y0 rest ih =>
    intro d x y hx hmem
    rw [List.foldl_cons]
    by_cases hyr : y ∈ rest
    · exact ih _ x y hx hyr
    · have hy0 : y0 = y := by
        rcases List.mem_cons.mp hmem with h | h
        · exact h.symm
        · exact absurd h hyr
      subst hy0
      refine (rowsFold_get srcW destW src rest _ (x + y0 * destW) ?_).trans
        (upsampleRow_hit srcW destW src y0 d x hx)
      intro k hk x2 hx2 heq
      exact hyr ((rowcol_inj destW x x2 y0 k hx (List.mem_range.mp hx2) heq).2 ▸ hk)

/-- Point-sampled upsampling: inside the destination extents the
upsampled level reads the next-coarser level at the halved indices. -/
theorem upsampleLevel_hit (srcW destW destH : Nat) (src d : Nat → Nat) (x y : Nat)
    (hx : x < destW) (hy : y < destH) :
    upsampleLevel srcW destW destH src d (x + y * destW) = src (x / 2 + y / 2 * srcW) :=
  rowsFold_hit srcW destW src (List.range destH) d x y hx (List.mem_range.mpr hy)

theorem updateStep_other (ev : Nat → IndirCacheEntry → Nat) (dims : CachePageTreeDims)
    (pages : Nat → IndirCacheEntry) (tbl : Nat → Nat → Nat) (l l2 : Nat)
    (h1 : l2 ≠ l) (h2 : ¬(l ≠ 0 ∧ l2 = l - 1)) :
    updateStep ev dims pages tbl l l2 = tbl l2 := by
  unfold updateStep
  rw [if_neg h2, if_neg h1]

theorem updateStep_self (ev : Nat → IndirCacheEntry → Nat) (dims : CachePageTreeDims)
    (pages : Nat → IndirCacheEntry) (tbl : Nat → Nat → Nat) (l : Nat) :
    updateStep ev dims pages tbl l l = writeLevelPages ev dims pages l (tbl l) := by
  unfold updateStep
  rw [if_neg (show ¬(l ≠ 0 ∧ l = l - 1) by omega), if_pos rfl]

theorem updateStep_below (ev : Nat → IndirCacheEntry → Nat) (dims : CachePageTreeDims)
    (pages : Nat → IndirCacheEntry) (tbl : Nat → Nat → Nat) (M : Nat) :
    updateStep ev dims pages tbl (M + 1) M =
      upsampleLevel (dims.numPagesX (M + 1)) (dims.numPagesX M) (dims.numPagesY M)
        (writeLevelPages ev dims pages (M + 1) (tbl (M + 1))) (tbl M) := by
  unfold updateStep
  rw [if_pos (show M + 1 ≠ 0 ∧ M = M + 1 - 1 from ⟨Nat.succ_ne_zero M, rfl⟩)]
  rfl

theorem updateIndirection_eq_updateLevels (ev : Nat → IndirCacheEntry → Nat)
    (dims : CachePageTreeDims) (pages : Nat → IndirCacheEntry) (tbl : Nat → Nat → Nat) :
    updateIndirectionTexture ev dims pages tbl = updateLevels ev dims pages dims.numLevels tbl := by
  show ((List.range dims.numLevels).reverse).foldl (updateStep ev dims pages) tbl = _
  generalize dims.numLevels = n
  induction n generalizing tbl with
  | zero => rfl
  | succ k ih =>
    rw [List.range_succ, List.reverse_append, List.reverse_singleton,
      List.singleton_append, List.foldl_cons]
    exact ih (updateStep ev dims pages tbl k)

/-- Processing levels `n-1 … 0` leaves every level `≥ n` unchanged. -/
theorem updateLevels_high (ev : Nat → IndirCacheEntry → Nat) (dims : CachePageTreeDims)
    (pages : Nat → IndirCacheEntry) :
    ∀ (n : Nat) (tbl : Nat → Nat → Nat) (l2 : Nat), n ≤ l2 →
      updateLevels ev dims pages n tbl l2 = tbl l2 := by
  intro n
  induction n with
  | zero => intro tbl l2 _; rfl
  | succ k ih =>
    intro tbl l2 h
    show updateLevels ev dims pages k (updateStep ev dims pages tbl k) l2 = tbl l2
    rw [ih (updateStep ev dims pages tbl k) l2 (by omega)]
    exact updateStep_other ev dims pages tbl k l2 (by omega) (by omega)

/-- After the full loop, level `M` (when processed last among `≤ M`)
ends as the page-write pass applied to its state at the start of that
iteration. -/
theorem updateLevels_succ_self (ev : Nat → IndirCacheEntry → Nat) (dims : CachePageTreeDims)
    (pages : Nat → IndirCacheEntry) (tbl : Nat → Nat → Nat) (M : Nat) :
    updateLevels ev dims pages (M + 1) tbl M = writeLevelPages ev dims pages M (tbl M) := by
  show updateLevels ev dims pages M (updateStep ev dims pages tbl M) M = _
  rw [updateLevels_high ev dims pages M _ M (Nat.le_refl M)]
  exact updateStep_self ev dims pages tbl M

/-- Core upsample-consistency invariant: at any position of level `M`
not overwritten by a level-`M` cache entry, the final table agrees
with the final level `M+1` at the halved indices — for every entry
encoding `ev`. -/
theorem updateLevels_upsample (ev : Nat → IndirCacheEntry → Nat) (dims : CachePageTreeDims)
    (pages : Nat → IndirCacheEntry) (M x y : Nat)
    (hx : x < dims.numPagesX M) (hy : y < dims.numPagesY M)
    (hnotov : ∀ p ∈ List.range TotalCachePages,
      pageIdExtractMipLevel (pages p).pageId = M →
      (pages p).pageId ≠ InvalidPageId →
      pageIdExtractPageX (pages p).pageId
        + pageIdExtractPageY (pages p).pageId * dims.numPagesX M
        ≠ x + y * dims.numPagesX M) :
    ∀ n, M + 1 < n → ∀ tbl,
      updateLevels ev dims pages n tbl M (x + y * dims.numPagesX M)
        = updateLevels ev dims pages n tbl (M + 1)
            (x / 2 + y / 2 * dims.numPagesX (M + 1)) := by
  intro n
  induction n with
  | zero => intro h; exact absurd h (Nat.not_lt_zero _)
  | succ k ih =>
    intro hk tbl
    show updateLevels ev dims pages k (updateStep ev dims pages tbl k) M _
      = updateLevels ev dims pages k (updateStep ev dims pages tbl k) (M + 1) _
    by_cases hkM : M + 1 < k
    · exact ih hkM (updateStep ev dims pages tbl k)
    · have hkeq : k = M + 1 := by omega
      subst hkeq
      have hmid : updateLevels ev dims pages (M + 1)
          (updateStep ev dims pages tbl (M + 1)) (M + 1)
          = writeLevelPages ev dims pages (M + 1) (tbl (M + 1)) := by
        rw [updateLevels_high ev dims pages (M + 1) _ (M + 1) (Nat.le_refl _)]
        exact updateStep_self ev dims pages tbl (M + 1)
      calc updateLevels ev dims pages (M + 1) (updateStep ev dims pages tbl (M + 1)) M
            (x + y * dims.numPagesX M)
          = writeLevelPages ev dims pages M (updateStep ev dims pages tbl (M + 1) M)
              (x + y * dims.numPagesX M) :=
            congrFun (updateLevels_succ_self ev dims pages _ M) _
        _ = updateStep ev dims pages tbl (M + 1) M (x + y * dims.numPagesX M) :=
            writeLevelPages_untouched ev dims pages M _ _ hnotov
        _ = upsampleLevel (dims.numPagesX (M + 1)) (dims.numPagesX M) (dims.numPagesY M)
              (writeLevelPages ev dims pages (M + 1) (tbl (M + 1))) (tbl M)
              (x + y * dims.numPagesX M) :=
            congrFun (updateStep_below ev dims pages tbl M) _
        _ = writeLevelPages ev dims pages (M + 1) (tbl (M + 1))
              (x / 2 + y / 2 * dims.numPagesX (M + 1)) :=
            upsampleLevel_hit (dims.numPagesX (M + 1)) (dims.numPagesX M)
              (dims.numPagesY M) _ _ x y hx hy
        _ = updateLevels ev dims pages (M + 1) (updateStep ev dims pages tbl (M + 1)) (M + 1)
              (x / 2 + y / 2 * dims.numPagesX (M + 1)) := (congrFun hmid _).symm

/-- C5: after `updateIndirectionTexture` runs over the cache entries,
for every mip level `L > 0` and every in-range position `(x, y)` of
level `L-1` that no valid level-`L-1` cache entry overwrites, the
entry of level `L-1` at `(x, y)` equals the entry of level `L` at
`(x/2, y/2)` — for the RGBA-8888 table-entry encoding and for the
RGB-5:6:5 encoding alike, from any prior table contents. -/
theorem updateIndirection_claim_C5 (dims : CachePageTreeDims)
    (pages : Nat → IndirCacheEntry) (log2VirtPagesWide : Nat)
    (tblA tblB : Nat → Nat → Nat) (L x y : Nat)
    (hL : 1 ≤ L) (hLn : L < dims.numLevels)
    (hx : x < dims.numPagesX (L - 1)) (hy : y < dims.numPagesY (L - 1))
    (hnotov : ∀ p ∈ List.range TotalCachePages,
      pageIdExtractMipLevel (pages p).pageId = L - 1 →
      (pages p).pageId ≠ InvalidPageId →
      pageIdExtractPageX (pages p).pageId
        + pageIdExtractPageY (pages p).pageId * dims.numPagesX (L - 1)
        ≠ x + y * dims.numPagesX (L - 1)) :
    (updateIndirectionTexture (tableEntryRgba8888 dims) dims pages tblA (L - 1)
        (x + y * dims.numPagesX (L - 1))
      = updateIndirectionTexture (tableEntryRgba8888 dims) dims pages tblA L
          (x / 2 + y / 2 * dims.numPagesX L))
    ∧ (updateIndirectionTexture (tableEntryRgb565 log2VirtPagesWide) dims pages tblB (L - 1)
        (x + y * dims.numPagesX (L - 1))
      = updateIndirectionTexture (tableEntryRgb565 log2VirtPagesWide) dims pages tblB L
          (x / 2 + y / 2 * dims.numPagesX L)) := by
  obtain ⟨M, rfl⟩ : ∃ M, L = M + 1 := ⟨L - 1, by omega⟩
  simp only [Nat.add_sub_cancel] at hx hy hnotov ⊢
  constructor
  · rw [updateIndirection_eq_updateLevels]
    exact updateLevels_upsample (tableEntryRgba8888 dims) dims pages M x y hx hy hnotov
      dims.numLevels hLn tblA
  · rw [updateIndirection_eq_updateLevels]
    exact updateLevels_upsample (tableEntryRgb565 log2VirtPagesWide) dims pages M x y
      hx hy hnotov dims.numLevels hLn tblB

/-- An all-invalid cache pool (right after `purgeCache`). -/
def c5Pages : Nat → IndirCacheEntry := fun _ => ⟨InvalidPageId, 0, 0⟩

def c5Tbl : Nat → Nat → Nat := fun _ _ => 0

theorem updateIndirection_claim_C5_witness :
    (updateIndirectionTexture (tableEntryRgba8888 demoDims) demoDims c5Pages c5Tbl (1 - 1)
        (0 + 0 * demoDims.numPagesX (1 - 1))
      = updateIndirectionTexture (tableEntryRgba8888 demoDims) demoDims c5Pages c5Tbl 1
          (0 / 2 + 0 / 2 * demoDims.numPagesX 1))
    ∧ (updateIndirectionTexture (tableEntryRgb565 5) demoDims c5Pages c5Tbl (1 - 1)
        (0 + 0 * demoDims.numPagesX (1 - 1))
      = updateIndirectionTexture (tableEntryRgb565 5) demoDims c5Pages c5Tbl 1
          (0 / 2 + 0 / 2 * demoDims.numPagesX 1)) :=
  updateIndirection_claim_C5 demoDims c5Pages 5 c5Tbl c5Tbl 1 0 0
    (Nat.le_refl 1) (by decide) (by decide) (by decide)
    (fun _ _ _ hne => absurd rfl hne)

-- ==================================================================
-- Page resolver feedback analysis (vt_page_resolver.cpp)
-- ==================================================================

/-- `pageMap[id]`: occurrences of `id` among the feedback pixels,
counting only non-sentinel pixels (the insertion loop skips
`InvalidPageId`). -/
def pageFreq (buf : List Nat) (id : Nat) : Nat :=
  (buf.filter (fun p => p ≠ InvalidPageId)).count id

/-- The keys of `pageMap`: the distinct non-sentinel feedback pixels
("a table of unique pages"). -/
def feedbackUniques (buf : List Nat) : List Nat :=
  (buf.filter (fun p => p ≠ InvalidPageId)).dedup

/-- The `std::sort` comparator ("a goes before b"): mip level
descending, then occurrence count descending as the tie-breaker. -/
def pageBefore (f : Nat → Nat) (a b : Nat) : Bool :=
  if pageIdExtractMipLevel a > pageIdExtractMipLevel b then true
  else if pageIdExtractMipLevel a = pageIdExtractMipLevel b then decide (f a > f b)
  else false

/-- `sortedPages` after the `std::sort` call: the unique pages sorted
by the comparator.  `std::sort` with the strict comparator `c` yields
a sequence pairwise ordered by `fun a b => c b a = false`; the model
produces one such output via insertion sort. -/
def feedbackSorted (buf : List Nat) : List Nat :=
  (feedbackUniques buf).insertionSort (fun a b => pageBefore (pageFreq buf) b a = false)

/-- `visiblePages = pageMap.size()`: the number of unique
non-sentinel page ids. -/
def visiblePagesOf (buf : List Nat) : Nat :=
  (feedbackUniques buf).length

theorem pageBefore_iff (f : Nat → Nat) (a b : Nat) :
    pageBefore f a b = true ↔
      (pageIdExtractMipLevel b < pageIdExtractMipLevel a
        ∨ (pageIdExtractMipLevel a = pageIdExtractMipLevel b ∧ f b < f a)) := by
  unfold pageBefore
  by_cases h1 : pageIdExtractMipLevel a > pageIdExtractMipLevel b
  · rw [if_pos h1]
    exact ⟨fun _ => Or.inl h1, fun _ => rfl⟩
  · rw [if_neg h1]
    by_cases h2 : pageIdExtractMipLevel a = pageIdExtractMipLevel b
    · rw [if_pos h2]
      simp only [decide_eq_true_eq]
      omega
    · rw [if_neg h2]
      simp only [Bool.false_eq_true, false_iff]
      omega

theorem pageBefore_false_iff (f : Nat → Nat) (a b : Nat) :
    pageBefore f a b = false ↔
      (pageIdExtractMipLevel a < pageIdExtractMipLevel b
        ∨ (pageIdExtractMipLevel a = pageIdExtractMipLevel b ∧ f a ≤ f b)) := by
  rw [← Bool.not_eq_true, pageBefore_iff]
  omega

theorem pageBefore_total (f : Nat → Nat) :
    IsTotal Nat (fun a b => pageBefore f b a = false) := by
  constructor
  intro a b
  rw [pageBefore_false_iff, pageBefore_false_iff]
  omega

theorem pageBefore_trans (f : Nat → Nat) :
    IsTrans Nat (fun a b => pageBefore f b a = false) := by
  constructor
  intro a b c hab hbc
  rw [pageBefore_false_iff] at hab hbc ⊢
  omega

/-- C6: `feedbackBufferAnalysis` drops every sentinel pixel, and
`sortedPages` is a permutation of the distinct non-sentinel page ids
that is pairwise ordered by mip level descending with occurrence
count descending as the tie-breaker among equal mip levels;
`visiblePages` is the number of distinct non-sentinel page ids. -/
theorem feedbackBufferAnalysis_claim_C6 (buf : List Nat) :
    InvalidPageId ∉ feedbackSorted buf
    ∧ List.Perm (feedbackSorted buf) (feedbackUniques buf)
    ∧ (feedbackSorted buf).Pairwise (fun a b =>
        pageIdExtractMipLevel b < pageIdExtractMipLevel a
        ∨ (pageIdExtractMipLevel a = pageIdExtractMipLevel b
            ∧ pageFreq buf b ≤ pageFreq buf a))
    ∧ visiblePagesOf buf = (buf.filter (fun p => p ≠ InvalidPageId)).toFinset.card := by
  have hperm : List.Perm (feedbackSorted buf) (feedbackUniques buf) :=
    List.perm_insertionSort (fun a b => pageBefore (pageFreq buf) b a = false)
      (feedbackUniques buf)
  refine ⟨?_, hperm, ?_, ?_⟩
  · intro hmem
    have hmem2 : InvalidPageId ∈ feedbackUniques buf := hperm.mem_iff.mp hmem
    have hmem3 : InvalidPageId ∈ buf.filter (fun p => p ≠ InvalidPageId) :=
      List.mem_dedup.mp hmem2
    have := (List.mem_filter.mp hmem3).2
    simp at this
  · have hsorted : (feedbackSorted buf).Sorted
        (fun a b => pageBefore (pageFreq buf) b a = false) := by
      haveI := pageBefore_total (pageFreq buf)
      haveI := pageBefore_trans (pageFreq buf)
      exact List.sorted_insertionSort (fun a b => pageBefore (pageFreq buf) b a = false)
        (feedbackUniques buf)
    refine hsorted.imp ?_
    intro a b hab
    rw [pageBefore_false_iff] at hab
    omega
  · exact (List.card_toFinset _).symm

-- ==================================================================
-- VTFF page file (vt_page_file.cpp)
-- ==================================================================

/-- `PageTable::PageSizeInPixels = 128` (vt_page_table.hpp). -/
def PageSizeInPixels : Nat := 128

/-- `PageRequestDataPacket::TotalPagePixels`: RGBA pixels per page. -/
def TotalPagePixels : Nat := PageSizeInPixels * PageSizeInPixels

/-- The environment `loadPage` interacts with: the page tree entry's
file offset for an id, whether `fseek` to an offset fails, the result
of the full-size `fread` at an offset (`none` = failure or short
read), and the `addDebugInfo` stamping pass. -/
structure FileOracle where
  pageInfoOffset : Nat → Nat
  seekFails : Nat → Bool
  readPage : Nat → Option (List Nat)
  addDebugInfo : Bool
  debugStamp : Nat → List Nat → List Nat

/-- The diagnostics `loadPage` can emit (`vtLogError` / `vtLogWarning`). -/
inductive LoadPageLog where
  | invalidId
  | seekFailed
  | readFailed
  deriving DecidableEq, Repr

/-- `VTFFPageFile::loadPage(pageId, pageRequest)`: on an invalid id,
a failed `fseek` to the page's file offset, or a failed/short
`fread`, it zero-fills `pageRequest.pageData` (`memset`), logs one
diagnostic and returns normally; on success it stores the bytes read
(stamped when `addDebugInfo` is set) and logs nothing.  Every path is
a plain return — the function never throws or aborts. -/
def loadPage (oracle : FileOracle) (pageId : Nat) :
    List Nat × List LoadPageLog :=
  if pageId = InvalidPageId then
    (List.replicate TotalPagePixels 0, [LoadPageLog.invalidId])
  else if oracle.seekFails (oracle.pageInfoOffset pageId) then
    (List.replicate TotalPagePixels 0, [LoadPageLog.seekFailed])
  else
    match oracle.readPage (oracle.pageInfoOffset pageId) with
    | none => (List.replicate TotalPagePixels 0, [LoadPageLog.readFailed])
    | some data =>
      (if oracle.addDebugInfo then oracle.debugStamp pageId data else data, [])

/-- C7: whenever an error occurs in `loadPage` — the id is the
invalid sentinel, the seek to the page's offset fails, or the read
fails — the page payload is zero-filled, exactly one diagnostic is
logged, and the call still returns a value (soft failure). -/
theorem loadPage_claim_C7 (oracle : FileOracle) (pageId : Nat)
    (herr : pageId = InvalidPageId
      ∨ (pageId ≠ InvalidPageId ∧ oracle.seekFails (oracle.pageInfoOffset pageId) = true)
      ∨ (pageId ≠ InvalidPageId ∧ oracle.seekFails (oracle.pageInfoOffset pageId) = false
          ∧ oracle.readPage (oracle.pageInfoOffset pageId) = none)) :
    (loadPage oracle pageId).1 = List.replicate TotalPagePixels 0
    ∧ (loadPage oracle pageId).2 ≠ [] := by
  unfold loadPage
  rcases herr with h | ⟨h1, h2⟩ | ⟨h1, h2, h3⟩
  · rw [if_pos h]
    exact ⟨rfl, by simp⟩
  · rw [if_neg h1, if_pos h2]
    exact ⟨rfl, by simp⟩
  · rw [if_neg h1, if_neg (by rw [h2]; exact Bool.false_ne_true), h3]
    exact ⟨rfl, by simp⟩

def c7Oracle : FileOracle :=
  { pageInfoOffset := fun _ => 0
    seekFails := fun _ => false
    readPage := fun _ => none
    addDebugInfo := false
    debugStamp := fun _ d => d }

theorem loadPage_claim_C7_witness :
    (loadPage c7Oracle InvalidPageId).1 = List.replicate TotalPagePixels 0
    ∧ (loadPage c7Oracle InvalidPageId).2 ≠ [] :=
  loadPage_claim_C7 c7Oracle InvalidPageId (Or.inl rfl)

/-- `VTFFPageFile::isPowerOfTwo(size)` for a `uint32_t` argument:
`(size & (size - 1)) == 0`, with the subtraction wrapping modulo
`2^32` (so `0 - 1 = 0xFFFFFFFF`). -/
def isPowerOfTwo (size : Nat) : Bool :=
  Nat.land (size % 4294967296) ((size + 4294967296 - 1) % 4294967296) == 0

/-- One VTFF mip-level header as read by the constructor. -/
structure MipLevelInfo where
  width : Nat
  height : Nat
  numPagesX : Nat
  numPagesY : Nat

/-- Whether the constructor's validation pass raises the
"is not a power-of-2" fatal error for a mip-level header. -/
def vtffPow2FatalRaised (info : MipLevelInfo) : Bool :=
  !isPowerOfTwo info.numPagesX || !isPowerOfTwo info.numPagesY

/-- C10: `isPowerOfTwo 0 = true` (the `uint32_t` wrap makes
`0 & 0xFFFFFFFF = 0`), so a mip-level header declaring zero pages on
either axis never trips the power-of-two fatal error. -/
theorem isPowerOfTwo_claim_C10 :
    isPowerOfTwo 0 = true
    ∧ (∀ w h : Nat, vtffPow2FatalRaised ⟨w, h, 0, 0⟩ = false) :=
  ⟨by decide, fun _ _ => show (!isPowerOfTwo 0 || !isPowerOfTwo 0) = false by decide⟩

-- ==================================================================
-- sanitizePageId (vt_page_cache_mgr.cpp)
-- ==================================================================

theorem pageIdExtractPageX_lt (id : Nat) : pageIdExtractPageX id < 256 := by
  unfold pageIdExtractPageX; omega

theorem pageIdExtractPageY_lt (id : Nat) : pageIdExtractPageY id < 256 := by
  unfold pageIdExtractPageY; omega

theorem pageIdExtractMipLevel_lt (id : Nat) : pageIdExtractMipLevel id < 256 := by
  unfold pageIdExtractMipLevel; omega

theorem pageIdExtractTextureIndex_lt (id : Nat) : pageIdExtractTextureIndex id < 256 := by
  unfold pageIdExtractTextureIndex; omega

theorem sanitizePageId_eq (dims : CachePageTreeDims) (id : Nat) :
    sanitizePageId dims id = makePageId
      (if dims.numPagesX (if dims.numLevels ≤ pageIdExtractMipLevel id
            then dims.numLevels - 1 else pageIdExtractMipLevel id) ≤ pageIdExtractPageX id
        then dims.numPagesX (if dims.numLevels ≤ pageIdExtractMipLevel id
            then dims.numLevels - 1 else pageIdExtractMipLevel id) - 1
        else pageIdExtractPageX id)
      (if dims.numPagesY (if dims.numLevels ≤ pageIdExtractMipLevel id
            then dims.numLevels - 1 else pageIdExtractMipLevel id) ≤ pageIdExtractPageY id
        then dims.numPagesY (if dims.numLevels ≤ pageIdExtractMipLevel id
            then dims.numLevels - 1 else pageIdExtractMipLevel id) - 1
        else pageIdExtractPageY id)
      (if dims.numLevels ≤ pageIdExtractMipLevel id
        then dims.numLevels - 1 else pageIdExtractMipLevel id)
      (pageIdExtractTextureIndex id) := rfl

/-- General clamping behaviour of `sanitizePageId`: the mip level is
clamped to `numLevels - 1` first, then x and y are clamped to the
extents of the clamped level, and the texture index passes through. -/
theorem sanitizePageId_spec (dims : CachePageTreeDims) (id : Nat)
    (hnL : 1 ≤ dims.numLevels) (hnL2 : dims.numLevels ≤ 256)
    (hpX : ∀ l, l < dims.numLevels → 1 ≤ dims.numPagesX l ∧ dims.numPagesX l ≤ 256)
    (hpY : ∀ l, l < dims.numLevels → 1 ≤ dims.numPagesY l ∧ dims.numPagesY l ≤ 256) :
    pageIdExtractMipLevel (sanitizePageId dims id)
        = min (pageIdExtractMipLevel id) (dims.numLevels - 1)
    ∧ pageIdExtractPageX (sanitizePageId dims id)
        = min (pageIdExtractPageX id)
            (dims.numPagesX (min (pageIdExtractMipLevel id) (dims.numLevels - 1)) - 1)
    ∧ pageIdExtractPageY (sanitizePageId dims id)
        = min (pageIdExtractPageY id)
            (dims.numPagesY (min (pageIdExtractMipLevel id) (dims.numLevels - 1)) - 1)
    ∧ pageIdExtractTextureIndex (sanitizePageId dims id)
        = pageIdExtractTextureIndex id := by
  have hX := pageIdExtractPageX_lt id
  have hY := pageIdExtractPageY_lt id
  have hLt := pageIdExtractMipLevel_lt id
  have hT := pageIdExtractTextureIndex_lt id
  rw [sanitizePageId_eq dims id, pageIdExtractMipLevel_makePageId,
    pageIdExtractPageX_makePageId, pageIdExtractPageY_makePageId,
    pageIdExtractTextureIndex_makePageId]
  by_cases hc1 : dims.numLevels ≤ pageIdExtractMipLevel id
  · rw [if_pos hc1]
    have hmin : min (pageIdExtractMipLevel id) (dims.numLevels - 1) = dims.numLevels - 1 := by
      omega
    rw [hmin]
    have hWx := hpX (dims.numLevels - 1) (by omega)
    have hWy := hpY (dims.numLevels - 1) (by omega)
    refine ⟨by omega, ?_, ?_, by omega⟩
    · by_cases hc2 : dims.numPagesX (dims.numLevels - 1) ≤ pageIdExtractPageX id
      · rw [if_pos hc2]; omega
      · rw [if_neg hc2]; omega
    · by_cases hc3 : dims.numPagesY (dims.numLevels - 1) ≤ pageIdExtractPageY id
      · rw [if_pos hc3]; omega
      · rw [if_neg hc3]; omega
  · rw [if_neg hc1]
    have hmin : min (pageIdExtractMipLevel id) (dims.numLevels - 1)
        = pageIdExtractMipLevel id := by omega
    rw [hmin]
    have hWx := hpX (pageIdExtractMipLevel id) (by omega)
    have hWy := hpY (pageIdExtractMipLevel id) (by omega)
    refine ⟨by omega, ?_, ?_, by omega⟩
    · by_cases hc2 : dims.numPagesX (pageIdExtractMipLevel id) ≤ pageIdExtractPageX id
      · rw [if_pos hc2]; omega
      · rw [if_neg hc2]; omega
    · by_cases hc3 : dims.numPagesY (pageIdExtractMipLevel id) ≤ pageIdExtractPageY id
      · rw [if_pos hc3]; omega
      · rw [if_neg hc3]; omega

/-- C8: `sanitizePageId` clamps the mip level to `numLevels-1`, then
clamps x and y to the clamped level's page extents minus one, and
preserves the texture index; in particular the all-255 input maps to
the last level's bottom-right page with its texture index intact. -/
theorem sanitizePageId_claim_C8 (dims : CachePageTreeDims) (id t : Nat)
    (hnL : 1 ≤ dims.numLevels) (hnL2 : dims.numLevels ≤ 256)
    (hpX : ∀ l, l < dims.numLevels → 1 ≤ dims.numPagesX l ∧ dims.numPagesX l ≤ 256)
    (hpY : ∀ l, l < dims.numLevels → 1 ≤ dims.numPagesY l ∧ dims.numPagesY l ≤ 256)
    (ht : t < 256) :
    (pageIdExtractMipLevel (sanitizePageId dims id)
        = min (pageIdExtractMipLevel id) (dims.numLevels - 1)
      ∧ pageIdExtractPageX (sanitizePageId dims id)
        = min (pageIdExtractPageX id)
            (dims.numPagesX (min (pageIdExtractMipLevel id) (dims.numLevels - 1)) - 1)
      ∧ pageIdExtractPageY (sanitizePageId dims id)
        = min (pageIdExtractPageY id)
            (dims.numPagesY (min (pageIdExtractMipLevel id) (dims.numLevels - 1)) - 1)
      ∧ pageIdExtractTextureIndex (sanitizePageId dims id)
        = pageIdExtractTextureIndex id)
    ∧ (pageIdExtractMipLevel (sanitizePageId dims (makePageId 255 255 255 t))
        = dims.numLevels - 1
      ∧ pageIdExtractPageX (sanitizePageId dims (makePageId 255 255 255 t))
        = dims.numPagesX (dims.numLevels - 1) - 1
      ∧ pageIdExtractPageY (sanitizePageId dims (makePageId 255 255 255 t))
        = dims.numPagesY (dims.numLevels - 1) - 1
      ∧ pageIdExtractTextureIndex (sanitizePageId dims (makePageId 255 255 255 t)) = t) := by
  refine ⟨sanitizePageId_spec dims id hnL hnL2 hpX hpY, ?_⟩
  obtain ⟨hm, hx, hy, htex⟩ :=
    sanitizePageId_spec dims (makePageId 255 255 255 t) hnL hnL2 hpX hpY
  rw [pageIdExtractMipLevel_makePageId] at hm hx hy
  rw [pageIdExtractPageX_makePageId] at hx
  rw [pageIdExtractPageY_makePageId] at hy
  rw [pageIdExtractTextureIndex_makePageId] at htex
  have hWx := hpX (dims.numLevels - 1) (by omega)
  have hWy := hpY (dims.numLevels - 1) (by omega)
  have hminL : min (255 % 256) (dims.numLevels - 1) = dims.numLevels - 1 := by omega
  rw [hminL] at hm hx hy
  refine ⟨hm, ?_, ?_, ?_⟩
  · rw [hx]; omega
  · rw [hy]; omega
  · rw [htex]; omega

theorem sanitizePageId_claim_C8_witness :
    (pageIdExtractMipLevel (sanitizePageId demoDims 77)
        = min (pageIdExtractMipLevel 77) (demoDims.numLevels - 1)
      ∧ pageIdExtractPageX (sanitizePageId demoDims 77)
        = min (pageIdExtractPageX 77)
            (demoDims.numPagesX (min (pageIdExtractMipLevel 77) (demoDims.numLevels - 1)) - 1)
      ∧ pageIdExtractPageY (sanitizePageId demoDims 77)
        = min (pageIdExtractPageY 77)
            (demoDims.numPagesY (min (pageIdExtractMipLevel 77) (demoDims.numLevels - 1)) - 1)
      ∧ pageIdExtractTextureIndex (sanitizePageId demoDims 77)
        = pageIdExtractTextureIndex 77)
    ∧ (pageIdExtractMipLevel (sanitizePageId demoDims (makePageId 255 255 255 3))
        = demoDims.numLevels - 1
      ∧ pageIdExtractPageX (sanitizePageId demoDims (makePageId 255 255 255 3))
        = demoDims.numPagesX (demoDims.numLevels - 1) - 1
      ∧ pageIdExtractPageY (sanitizePageId demoDims (makePageId 255 255 255 3))
        = demoDims.numPagesY (demoDims.numLevels - 1) - 1
      ∧ pageIdExtractTextureIndex (sanitizePageId demoDims (makePageId 255 255 255 3)) = 3) :=
  sanitizePageId_claim_C8 demoDims 77 3 (by decide) (by decide)
    (by decide) (by decide) (by decide)

-- ==================================================================
-- VirtualTexture::frameUpdate (vt_virtual_texture.cpp)
-- ==================================================================

/-- The slot of the cache page tree addressed by a page id. -/
def slotOf (s : CacheState) (id : Nat) : TreeSlot :=
  s.tree (pageIdExtractMipLevel id) (pageIdExtractPageX id) (pageIdExtractPageY id)

/-- The part of a fulfilled `PageRequestDataPacket` that `frameUpdate`
branches on (`pageData` itself does not influence control flow). -/
structure PageRequestDataPacket where
  pageId : Nat
  fileId : Nat

/-- One iteration of `frameUpdate`'s main upload loop: skip the
request when its texture index differs, when it is a sub-texture
completion (`fileId != 0`), or when `stillWantPage` is false;
otherwise `accommodatePage` it and upload (recording the uploaded
page id).  The inner sub-texture loop (`fileId == t ≥ 1`) uploads to
child page tables only and never touches the page cache. -/
def frameUpdateStep (textureIndex : Nat) (acc : CacheState × List Nat)
    (req : PageRequestDataPacket) : CacheState × List Nat :=
  if pageIdExtractTextureIndex req.pageId ≠ textureIndex ∨ req.fileId ≠ 0
      ∨ stillWantPage acc.1 req.pageId = false then
    acc
  else
    ((accommodatePage acc.1 req.pageId).1, acc.2 ++ [req.pageId])

/-- `frameUpdate` draining the ready queue: the final cache state and
the sequence of main-table page uploads. -/
def frameUpdateUploads (textureIndex : Nat) (s : CacheState)
    (queue : List PageRequestDataPacket) : CacheState × List Nat :=
  queue.foldl (frameUpdateStep textureIndex) (s, [])

theorem allocPageEntry_entryPageId (s : CacheState) :
    (allocPageEntry s).1.entryPageId = s.entryPageId := by
  unfold allocPageEntry
  by_cases h : s.entryPageId s.lru ≠ InvalidPageId
  · rw [if_pos h]
    dsimp only
    rcases hpv : s.prev s.lru with - | pv
    · rfl
    · rfl
  · rw [if_neg h]
    dsimp only
    rcases hpv : s.prev s.lru with - | pv
    · rfl
    · rfl

theorem accommodatePage_tree (s : CacheState) (id : Nat) :
    (accommodatePage s id).1.tree = treeSet (allocPageEntry s).1.tree
      (pageIdExtractMipLevel id) (pageIdExtractPageX id) (pageIdExtractPageY id)
      (TreeSlot.entry (allocPageEntry s).2) := rfl

theorem accommodatePage_entryPageId (s : CacheState) (id : Nat) :
    (accommodatePage s id).1.entryPageId
      = fun i => if i = (allocPageEntry s).2 then id
          else (allocPageEntry s).1.entryPageId i := rfl

/-- Reading the tree at the coordinates of a page that was neither
evicted nor accommodated: `allocPageEntry`'s defensive clear can only
null a slot, never mark it in-flight. -/
theorem allocPageEntry_slot (s : CacheState) (id : Nat) :
    slotOf (allocPageEntry s).1 id = slotOf s id
      ∨ slotOf (allocPageEntry s).1 id = TreeSlot.null := by
  unfold slotOf
  rw [allocPageEntry_tree]
  by_cases h : s.entryPageId s.lru ≠ InvalidPageId
  · rw [if_pos h]
    unfold treeSetId
    by_cases h2 : pageIdExtractMipLevel id = pageIdExtractMipLevel (s.entryPageId s.lru)
        ∧ pageIdExtractPageX id = pageIdExtractPageX (s.entryPageId s.lru)
        ∧ pageIdExtractPageY id = pageIdExtractPageY (s.entryPageId s.lru)
    · exact Or.inr (treeSet_pos _ _ _ _ _ _ _ _ h2)
    · exact Or.inl (treeSet_neg _ _ _ _ _ _ _ _ h2)
  · rw [if_neg h]
    exact Or.inl rfl

theorem allocPageEntry_slot_fresh (s : CacheState) (id : Nat)
    (hfresh : ∀ i : Nat, tripleOf (s.entryPageId i) ≠ tripleOf id) :
    slotOf (allocPageEntry s).1 id = slotOf s id := by
  unfold slotOf
  rw [allocPageEntry_tree]
  by_cases h : s.entryPageId s.lru ≠ InvalidPageId
  · rw [if_pos h]
    unfold treeSetId
    exact treeSet_neg _ _ _ _ _ _ _ _
      (tripleOf_ne_components id _ (Ne.symm (hfresh s.lru)))
  · rw [if_neg h]

theorem accommodatePage_slot_other (s : CacheState) (id id2 : Nat)
    (hne : tripleOf id2 ≠ tripleOf id) :
    slotOf (accommodatePage s id2).1 id = slotOf (allocPageEntry s).1 id := by
  unfold slotOf
  rw [accommodatePage_tree]
  exact treeSet_neg _ _ _ _ _ _ _ _ (tripleOf_ne_components id id2 (Ne.symm hne))

theorem accommodatePage_slot_self (s : CacheState) (id : Nat) :
    slotOf (accommodatePage s id).1 id = TreeSlot.entry (allocPageEntry s).2 := by
  unfold slotOf
  rw [accommodatePage_tree]
  exact treeSet_pos _ _ _ _ _ _ _ _ ⟨rfl, rfl, rfl⟩

/-- After `accommodatePage(id)` the tree slot for `id` holds a real
entry, so `stillWantPage(id)` answers false. -/
theorem stillWantPage_after_accommodate (s : CacheState) (id : Nat) :
    stillWantPage (accommodatePage s id).1 id = false := by
  have h := accommodatePage_slot_self s id
  unfold slotOf at h
  unfold stillWantPage
  rw [h]
  exact decide_eq_false (fun hc => TreeSlot.noConfusion hc)

theorem stillWantPage_iff (s : CacheState) (id : Nat) :
    stillWantPage s id = true ↔ slotOf s id = TreeSlot.inflight := by
  unfold stillWantPage slotOf
  exact decide_eq_true_iff

/-- Two in-range ids of the same texture with the same
(level, x, y) triple are the same id. -/
theorem triple_ne_of_ne (a b tI : Nat) (ha : a < 4294967296) (hb : b < 4294967296)
    (hta : pageIdExtractTextureIndex a = tI) (htb : pageIdExtractTextureIndex b = tI)
    (hne : a ≠ b) : tripleOf a ≠ tripleOf b := by
  intro h
  simp only [tripleOf, Prod.mk.injEq] at h
  exact hne (pageId_ext a b ha hb h.2.1 h.2.2 h.1 (hta.trans htb.symm))

theorem count_append_single (l : List Nat) (p a : Nat) :
    (l ++ [p]).count a = l.count a + if p = a then 1 else 0 := by
  rw [List.count_append]
  by_cases h : p = a
  · rw [if_pos h, h]
    simp [List.count_cons]
  · rw [if_neg h]
    simp [List.count_cons, h]

/-- `id` has not been uploaded yet: nothing counted, its slot is still
the in-flight sentinel, and no pool entry's resident page aliases its
tree coordinates. -/
def C9Pending (id : Nat) (acc : CacheState × List Nat) : Prop :=
  acc.2.count id = 0
  ∧ slotOf acc.1 id = TreeSlot.inflight
  ∧ ∀ i : Nat, tripleOf (acc.1.entryPageId i) ≠ tripleOf id

/-- `id` has been uploaded exactly once and its slot is no longer the
in-flight sentinel (a real entry, or null after a later eviction). -/
def C9Uploaded (id : Nat) (acc : CacheState × List Nat) : Prop :=
  acc.2.count id = 1 ∧ slotOf acc.1 id ≠ TreeSlot.inflight

theorem c9_step (tI id : Nat) (hid32 : id < 4294967296)
    (htex : pageIdExtractTextureIndex id = tI)
    (req : PageRequestDataPacket) (hreq32 : req.pageId < 4294967296)
    (acc : CacheState × List Nat) :
    (C9Pending id acc → (req.pageId = id ∧ req.fileId = 0) →
      C9Uploaded id (frameUpdateStep tI acc req))
    ∧ (C9Pending id acc → ¬(req.pageId = id ∧ req.fileId = 0) →
      C9Pending id (frameUpdateStep tI acc req))
    ∧ (C9Uploaded id acc → C9Uploaded id (frameUpdateStep tI acc req)) := by
  refine ⟨?_, ?_, ?_⟩
  · rintro ⟨hcnt, hslot, _⟩ ⟨hpid, hfid⟩
    have hC : ¬(pageIdExtractTextureIndex req.pageId ≠ tI ∨ req.fileId ≠ 0
        ∨ stillWantPage acc.1 req.pageId = false) := by
      intro h
      rcases h with h | h | h
      · exact h (by rw [hpid]; exact htex)
      · exact h hfid
      · rw [hpid] at h
        rw [(stillWantPage_iff acc.1 id).mpr hslot] at h
        exact Bool.noConfusion h
    unfold frameUpdateStep
    rw [if_neg hC]
    constructor
    · rw [count_append_single, hcnt, if_pos hpid]
    · rw [hpid]
      rw [accommodatePage_slot_self]
      exact fun hc => TreeSlot.noConfusion hc
  · rintro ⟨hcnt, hslot, hfresh⟩ hnm
    unfold frameUpdateStep
    by_cases hC : pageIdExtractTextureIndex req.pageId ≠ tI ∨ req.fileId ≠ 0
        ∨ stillWantPage acc.1 req.pageId = false
    · rw [if_pos hC]
      exact ⟨hcnt, hslot, hfresh⟩
    · rw [if_neg hC]
      push_neg at hC
      obtain ⟨htexr, hfidr, hswr⟩ := hC
      have hpne : req.pageId ≠ id := fun he => hnm ⟨he, hfidr⟩
      have htne : tripleOf req.pageId ≠ tripleOf id :=
        triple_ne_of_ne req.pageId id tI hreq32 hid32 htexr htex hpne
      refine ⟨?_, ?_, ?_⟩
      · rw [count_append_single, hcnt, if_neg hpne]
      · rw [accommodatePage_slot_other acc.1 id req.pageId htne,
          allocPageEntry_slot_fresh acc.1 id hfresh]
        exact hslot
      · intro i
        rw [accommodatePage_entryPageId]
        dsimp only
        by_cases hi : i = (allocPageEntry acc.1).2
        · rw [if_pos hi]
          exact htne
        · rw [if_neg hi, allocPageEntry_entryPageId]
          exact hfresh i
  · rintro ⟨hcnt, hslot⟩
    unfold frameUpdateStep
    by_cases hC : pageIdExtractTextureIndex req.pageId ≠ tI ∨ req.fileId ≠ 0
        ∨ stillWantPage acc.1 req.pageId = false
    · rw [if_pos hC]
      exact ⟨hcnt, hslot⟩
    · rw [if_neg hC]
      push_neg at hC
      obtain ⟨htexr, hfidr, hswr⟩ := hC
      have hpne : req.pageId ≠ id := by
        intro he
        rw [he] at hswr
        cases hb : stillWantPage acc.1 id
        · exact hswr hb
        · exact hslot ((stillWantPage_iff acc.1 id).mp hb)
      have htne : tripleOf req.pageId ≠ tripleOf id :=
        triple_ne_of_ne req.pageId id tI hreq32 hid32 htexr htex hpne
      refine ⟨?_, ?_⟩
      · rw [count_append_single, hcnt, if_neg hpne]
      · rw [accommodatePage_slot_other acc.1 id req.pageId htne]
        rcases allocPageEntry_slot acc.1 id with h | h
        · rw [h]; exact hslot
        · rw [h]; exact fun hc => TreeSlot.noConfusion hc

theorem c9_fold (tI id : Nat) (hid32 : id < 4294967296)
    (htex : pageIdExtractTextureIndex id = tI) :
    ∀ (queue : List PageRequestDataPacket) (acc : CacheState × List Nat),
      (∀ r ∈ queue, r.pageId < 4294967296) →
      ((C9Pending id acc ∧ (∃ r ∈ queue, r.pageId = id ∧ r.fileId = 0)) →
        C9Uploaded id (queue.foldl (frameUpdateStep tI) acc))
      ∧ ((C9Pending id acc ∧ ¬(∃ r ∈ queue, r.pageId = id ∧ r.fileId = 0)) →
        C9Pending id (queue.foldl (frameUpdateStep tI) acc))
      ∧ (C9Uploaded id acc → C9Uploaded id (queue.foldl (frameUpdateStep tI) acc)) := by
  intro queue
  induction queue with
  | nil =>
    intro acc _
    refine ⟨?_, ?_, ?_⟩
    · rintro ⟨-, r, hr, -⟩
      cases hr
    · exact fun h => h.1
    · exact fun h => h
  | cons r0 rest ih =>
    intro acc hq32
    have hr032 := hq32 r0 (List.mem_cons_self r0 rest)
    have hrest32 : ∀ r ∈ rest, r.pageId < 4294967296 :=
      fun r hr => hq32 r (List.mem_cons_of_mem r0 hr)
    obtain ⟨hstep1, hstep2, hstep3⟩ := c9_step tI id hid32 htex r0 hr032 acc
    obtain ⟨ih1, ih2, ih3⟩ := ih (frameUpdateStep tI acc r0) hrest32
    rw [List.foldl_cons]
    refine ⟨?_, ?_, ?_⟩
    · rintro ⟨hpend, r, hr, hmatch⟩
      by_cases hm0 : r0.pageId = id ∧ r0.fileId = 0
      · exact ih3 (hstep1 hpend hm0)
      · have hrrest : r ∈ rest := by
          rcases List.mem_cons.mp hr with h | h
          · exact absurd (h ▸ hmatch) hm0
          · exact h
        exact ih1 ⟨hstep2 hpend hm0, ⟨r, hrrest, hmatch⟩⟩
    · rintro ⟨hpend, hnone⟩
      have hm0 : ¬(r0.pageId = id ∧ r0.fileId = 0) :=
        fun h => hnone ⟨r0, List.mem_cons_self r0 rest, h⟩
      exact ih2 ⟨hstep2 hpend hm0,
        fun ⟨r, hr, hm⟩ => hnone ⟨r, List.mem_cons_of_mem r0 hr, hm⟩⟩
    · exact fun h => ih3 (hstep3 h)

/-- C9: right after `accommodatePage(id)` the tree slot for `id` holds
a real cache entry, so `stillWantPage(id)` answers false; hence when
`frameUpdate` drains a ready queue, a page id whose slot starts
in-flight (and that no resident page aliases) is accommodated and
uploaded exactly once when the queue holds at least one matching
`fileId == 0` completion for it — every later duplicate is silently
skipped — and zero times otherwise. -/
theorem frameUpdate_claim_C9 (textureIndex : Nat) (s : CacheState)
    (queue : List PageRequestDataPacket) (id : Nat)
    (hid32 : id < 4294967296)
    (htex : pageIdExtractTextureIndex id = textureIndex)
    (hq32 : ∀ r ∈ queue, r.pageId < 4294967296)
    (hslot : slotOf s id = TreeSlot.inflight)
    (hfresh : ∀ i : Nat, tripleOf (s.entryPageId i) ≠ tripleOf id) :
    (∀ s2 : CacheState, stillWantPage (accommodatePage s2 id).1 id = false)
    ∧ (frameUpdateUploads textureIndex s queue).2.count id
        = (if ∃ r ∈ queue, r.pageId = id ∧ r.fileId = 0 then 1 else 0) := by
  refine ⟨fun s2 => stillWantPage_after_accommodate s2 id, ?_⟩
  have hpend : C9Pending id (s, ([] : List Nat)) := ⟨List.count_nil id, hslot, hfresh⟩
  obtain ⟨h1, h2, -⟩ := c9_fold textureIndex id hid32 htex queue (s, []) hq32
  by_cases hex : ∃ r ∈ queue, r.pageId = id ∧ r.fileId = 0
  · rw [if_pos hex]
    exact (h1 ⟨hpend, hex⟩).1
  · rw [if_neg hex]
    exact (h2 ⟨hpend, hex⟩).1

/-- A ready queue holding two identical `fileId == 0` completions. -/
def c9Queue : List PageRequestDataPacket := [⟨0, 0⟩, ⟨0, 0⟩]

theorem frameUpdate_claim_C9_witness :
    (∀ s2 : CacheState, stillWantPage (accommodatePage s2 0).1 0 = false)
    ∧ (frameUpdateUploads 0 (lookupPage initialCacheState 0).1 c9Queue).2.count 0
        = (if ∃ r ∈ c9Queue, r.pageId = 0 ∧ r.fileId = 0 then 1 else 0) :=
  frameUpdate_claim_C9 0 (lookupPage initialCacheState 0).1 c9Queue 0
    (by decide) (by decide) (by decide) (by decide)
    (fun i => by show tripleOf InvalidPageId ≠ tripleOf 0; decide)
